import Mathlib

/-!
Verification of the freshness-context aggregation engine of `llm-council`
(`backend/retrieval.py`): timestamp normalization, record building, the
per-provider parsers, and the aggregator's collect/dedupe/rank/truncate
pipeline.  Python functions are embedded as executable Lean definitions;
network I/O and the `feedparser` library are represented by their result
values (an `Except` value stands for a call that either raised or returned).
-/

/-! ### Datetimes

Python `datetime` values are modelled by their components.  All datetimes
that arise in the engine are UTC (or naive and compared as such), so no
timezone field is carried; an explicit offset, where one is parsed, is
handled at the parse site just as `astimezone(timezone.utc)` would.
-/

deriving instance DecidableEq for Except

/-- A `datetime.datetime` value, to minute/second precision (the engine never
uses sub-second precision for ordering or display). -/
structure DateTime where
  year : Nat
  month : Nat
  day : Nat
  hour : Nat
  minute : Nat
  second : Nat
deriving DecidableEq, Repr

/-- `datetime.min`: the minimum representable instant, `0001-01-01 00:00:00`. -/
def datetimeMin : DateTime := ⟨1, 1, 1, 0, 0, 0⟩

/-- Order-embedding of a (range-valid) datetime into `Nat`; Python compares
datetimes lexicographically by components, and on the validated component
ranges produced by the parsers this encoding is strictly monotone for that
lexicographic order. -/
def dtKey (d : DateTime) : Nat :=
  ((((d.year * 13 + d.month) * 32 + d.day) * 24 + d.hour) * 60 + d.minute) * 60 + d.second

def isLeapYear (y : Nat) : Bool :=
  (y % 4 == 0 && y % 100 != 0) || y % 400 == 0

def daysInMonth (y m : Nat) : Nat :=
  if m = 2 then (if isLeapYear y then 29 else 28)
  else if m = 4 ∨ m = 6 ∨ m = 9 ∨ m = 11 then 30
  else 31

/-- Range-validity of datetime components, exactly the checks the
`datetime.datetime` constructor performs (`MINYEAR = 1`, `MAXYEAR = 9999`). -/
def ValidDT (dt : DateTime) : Prop :=
  1 ≤ dt.year ∧ dt.year ≤ 9999 ∧ 1 ≤ dt.month ∧ dt.month ≤ 12 ∧
  1 ≤ dt.day ∧ dt.day ≤ daysInMonth dt.year dt.month ∧
  dt.hour ≤ 23 ∧ dt.minute ≤ 59 ∧ dt.second ≤ 59

instance (dt : DateTime) : Decidable (ValidDT dt) := by
  unfold ValidDT; infer_instance

/-- The `datetime(...)` constructor: `some` on in-range components, `none`
where Python would raise `ValueError`. -/
def mkValidDateTime (y mo d h mi s : Nat) : Option DateTime :=
  if ValidDT ⟨y, mo, d, h, mi, s⟩ then some ⟨y, mo, d, h, mi, s⟩ else none

/-- The `datetime(year, month, day)` constructor on possibly-negative inputs
(used for Crossref date-parts arrays). -/
def mkValidDateTimeInt (y mo d : Int) : Option DateTime :=
  if 0 ≤ y ∧ 0 ≤ mo ∧ 0 ≤ d then mkValidDateTime y.toNat mo.toNat d.toNat 0 0 0
  else none

/-- Days since 0000-03-01 of a civil date (valid for `y ≥ 1`); used for
`timedelta` day arithmetic. -/
def toDayNumber (y m d : Nat) : Nat :=
  let yAdj := if m ≤ 2 then y - 1 else y
  let era := yAdj / 400
  let yoe := yAdj % 400
  let mp := (m + 9) % 12
  let doy := (153 * mp + 2) / 5 + d - 1
  let doe := yoe * 365 + yoe / 4 - yoe / 100 + doy
  era * 146097 + doe

/-- Inverse of `toDayNumber`. -/
def fromDayNumber (z : Nat) : Nat × Nat × Nat :=
  let era := z / 146097
  let doe := z % 146097
  let yoe := (doe - doe / 1460 + doe / 36524 - doe / 146096) / 365
  let y := yoe + era * 400
  let doy := doe - (365 * yoe + yoe / 4 - yoe / 100)
  let mp := (5 * doy + 2) / 153
  let d := doy - (153 * mp + 2) / 5 + 1
  let m := if mp < 10 then mp + 3 else mp - 9
  (if m ≤ 2 then y + 1 else y, m, d)

/-- `dt - timedelta(days=days)`. -/
def subDays (dt : DateTime) (days : Nat) : DateTime :=
  let z := toDayNumber dt.year dt.month dt.day - days
  let ymd := fromDayNumber z
  ⟨ymd.1, ymd.2.1, ymd.2.2, dt.hour, dt.minute, dt.second⟩

/-- Shift a datetime by a (possibly negative) number of minutes; used to
convert an offset-aware parse result to UTC, as `astimezone(timezone.utc)`
does. -/
def shiftMinutes (dt : DateTime) (k : Int) : DateTime :=
  let total : Int :=
    (toDayNumber dt.year dt.month dt.day : Int) * 1440 + dt.hour * 60 + dt.minute + k
  let t := total.toNat
  let ymd := fromDayNumber (t / 1440)
  ⟨ymd.1, ymd.2.1, ymd.2.2, t % 1440 / 60, t % 60, dt.second⟩

/-! ### Character-level rendering and parsing

`strftime`/`strptime`/`fromisoformat` work on strings; they are embedded
over `List Char`.  Digit fields are rendered zero-padded as documented for
`strftime`, and parsed with the exact per-directive patterns CPython's
`_strptime` uses (`%Y` is exactly four digits; `%m` is `1[0-2]|0[1-9]|[1-9]`,
and so on). -/

def digitChar (n : Nat) : Char := Char.ofNat (48 + n)

def digitVal (c : Char) : Nat := c.toNat - 48

def isDigitChar (c : Char) : Bool := 48 ≤ c.toNat && c.toNat ≤ 57

/-- Two-digit zero-padded rendering (`%m`, `%d`, `%H`, `%M`, `%S`). -/
def pad2chars (n : Nat) : List Char := [digitChar (n / 10), digitChar (n % 10)]

/-- Four-digit zero-padded rendering (`%Y`). -/
def pad4chars (n : Nat) : List Char :=
  [digitChar (n / 1000), digitChar (n / 100 % 10), digitChar (n / 10 % 10), digitChar (n % 10)]

/-- `%Y`: exactly four digits. -/
def parse4Digits : List Char → Option (Nat × List Char)
  | c1 :: c2 :: c3 :: c4 :: rest =>
    if isDigitChar c1 && isDigitChar c2 && isDigitChar c3 && isDigitChar c4 then
      some (((digitVal c1 * 10 + digitVal c2) * 10 + digitVal c3) * 10 + digitVal c4, rest)
    else none
  | _ => none

/-- Exactly two digits (`fromisoformat` date/time fields). -/
def parse2Digits : List Char → Option (Nat × List Char)
  | c1 :: c2 :: rest =>
    if isDigitChar c1 && isDigitChar c2 then some (digitVal c1 * 10 + digitVal c2, rest)
    else none
  | _ => none

/-- `%m`: the pattern `1[0-2]|0[1-9]|[1-9]`. -/
def parseMonth2 : List Char → Option (Nat × List Char)
  | c1 :: c2 :: rest =>
    if c1 = '1' && 48 ≤ c2.toNat && c2.toNat ≤ 50 then some (10 + digitVal c2, rest)
    else if c1 = '0' && 49 ≤ c2.toNat && c2.toNat ≤ 57 then some (digitVal c2, rest)
    else if 49 ≤ c1.toNat && c1.toNat ≤ 57 then some (digitVal c1, c2 :: rest)
    else none
  | [c1] =>
    if 49 ≤ c1.toNat && c1.toNat ≤ 57 then some (digitVal c1, []) else none
  | [] => none

/-- `%d`: the pattern `3[01]|[1-2]\d|0[1-9]|[1-9]`. -/
def parseDay2 : List Char → Option (Nat × List Char)
  | c1 :: c2 :: rest =>
    if c1 = '3' && 48 ≤ c2.toNat && c2.toNat ≤ 49 then some (30 + digitVal c2, rest)
    else if (49 ≤ c1.toNat && c1.toNat ≤ 50) && isDigitChar c2 then
      some (digitVal c1 * 10 + digitVal c2, rest)
    else if c1 = '0' && 49 ≤ c2.toNat && c2.toNat ≤ 57 then some (digitVal c2, rest)
    else if 49 ≤ c1.toNat && c1.toNat ≤ 57 then some (digitVal c1, c2 :: rest)
    else none
  | [c1] =>
    if 49 ≤ c1.toNat && c1.toNat ≤ 57 then some (digitVal c1, []) else none
  | [] => none

/-- `%H`: the pattern `2[0-3]|[0-1]\d|\d`. -/
def parseHour2 : List Char → Option (Nat × List Char)
  | c1 :: c2 :: rest =>
    if c1 = '2' && 48 ≤ c2.toNat && c2.toNat ≤ 51 then some (20 + digitVal c2, rest)
    else if (48 ≤ c1.toNat && c1.toNat ≤ 49) && isDigitChar c2 then
      some (digitVal c1 * 10 + digitVal c2, rest)
    else if isDigitChar c1 then some (digitVal c1, c2 :: rest)
    else none
  | [c1] => if isDigitChar c1 then some (digitVal c1, []) else none
  | [] => none

/-- `%M` and `%S`: the pattern `[0-5]\d|\d`. -/
def parseMinSec2 : List Char → Option (Nat × List Char)
  | c1 :: c2 :: rest =>
    if (48 ≤ c1.toNat && c1.toNat ≤ 53) && isDigitChar c2 then
      some (digitVal c1 * 10 + digitVal c2, rest)
    else if isDigitChar c1 then some (digitVal c1, c2 :: rest)
    else none
  | [c1] => if isDigitChar c1 then some (digitVal c1, []) else none
  | [] => none

/-- Match one literal character. -/
def expectChar (c : Char) : List Char → Option (List Char)
  | [] => none
  | x :: rest => if x = c then some rest else none

/-- Match a literal character sequence. -/
def expectSeq : List Char → List Char → Option (List Char)
  | [], l => some l
  | _ :: _, [] => none
  | p :: ps, c :: cs => if c = p then expectSeq ps cs else none

/-- `strftime("%Y-%m-%d %H:%M UTC")`: the canonical display rendering. -/
def canonicalChars (dt : DateTime) : List Char :=
  pad4chars dt.year ++ '-' :: (pad2chars dt.month ++ '-' :: (pad2chars dt.day ++
    ' ' :: (pad2chars dt.hour ++ ':' :: (pad2chars dt.minute ++ [' ', 'U', 'T', 'C']))))

def strftimeCanonical (dt : DateTime) : String := String.mk (canonicalChars dt)

/-- `strftime("%Y-%m-%dT%H:%M:%SZ")` (used by `_struct_time_to_iso`). -/
def isoZChars (dt : DateTime) : List Char :=
  pad4chars dt.year ++ '-' :: (pad2chars dt.month ++ '-' :: (pad2chars dt.day ++
    'T' :: (pad2chars dt.hour ++ ':' :: (pad2chars dt.minute ++ ':' ::
      (pad2chars dt.second ++ ['Z'])))))

/-- `datetime.isoformat()` of an aware UTC datetime with zero microseconds:
`YYYY-MM-DDTHH:MM:SS+00:00`. -/
def isoformatUTC (dt : DateTime) : String :=
  String.mk (pad4chars dt.year ++ '-' :: (pad2chars dt.month ++ '-' :: (pad2chars dt.day ++
    'T' :: (pad2chars dt.hour ++ ':' :: (pad2chars dt.minute ++ ':' ::
      (pad2chars dt.second ++ ['+', '0', '0', ':', '0', '0']))))))

/-- `strptime(s, "%Y-%m-%d %H:%M UTC")` (the `UTC` is literal text in the
format), including the `datetime` range validation. -/
def parseFmt1Chars (l : List Char) : Option DateTime := do
  let (y, l) ← parse4Digits l
  let l ← expectChar '-' l
  let (mo, l) ← parseMonth2 l
  let l ← expectChar '-' l
  let (d, l) ← parseDay2 l
  let l ← expectChar ' ' l
  let (h, l) ← parseHour2 l
  let l ← expectChar ':' l
  let (mi, l) ← parseMinSec2 l
  let l ← expectSeq [' ', 'U', 'T', 'C'] l
  if l = [] then mkValidDateTime y mo d h mi 0 else none

/-- `strptime(s, "%Y-%m-%dT%H:%M:%SZ")`. -/
def parseFmt2Chars (l : List Char) : Option DateTime := do
  let (y, l) ← parse4Digits l
  let l ← expectChar '-' l
  let (mo, l) ← parseMonth2 l
  let l ← expectChar '-' l
  let (d, l) ← parseDay2 l
  let l ← expectChar 'T' l
  let (h, l) ← parseHour2 l
  let l ← expectChar ':' l
  let (mi, l) ← parseMinSec2 l
  let l ← expectChar ':' l
  let (s, l) ← parseMinSec2 l
  let l ← expectChar 'Z' l
  if l = [] then mkValidDateTime y mo d h mi s else none

/-- `strptime(s, "%Y-%m-%d")` followed by `.replace(tzinfo=timezone.utc)`
(which leaves the components unchanged). -/
def parseYMDChars (l : List Char) : Option DateTime := do
  let (y, l) ← parse4Digits l
  let l ← expectChar '-' l
  let (mo, l) ← parseMonth2 l
  let l ← expectChar '-' l
  let (d, l) ← parseDay2 l
  if l = [] then mkValidDateTime y mo d 0 0 0 else none

/-- Optional `:SS` suffix of an ISO time. -/
def parseOptSeconds : List Char → Option (Nat × List Char)
  | ':' :: rest =>
    match parse2Digits rest with
    | some (s, rest) => some (s, rest)
    | none => none
  | l => some (0, l)

/-- The trailing `±HH:MM` offset of an ISO string, in minutes. -/
def parseIsoOffset (l : List Char) : Option Int :=
  match l with
  | sign :: r2 =>
    if sign = '+' ∨ sign = '-' then
      match parse2Digits r2 with
      | none => none
      | some (oh, r2) =>
        match expectChar ':' r2 with
        | none => none
        | some r2 =>
          match parse2Digits r2 with
          | none => none
          | some (om, r2) =>
            if r2 = [] ∧ oh ≤ 23 ∧ om ≤ 59 then
              some (if sign = '-' then -(oh * 60 + om : Int) else (oh * 60 + om : Int))
            else none
    else none
  | [] => none

/-- The `HH:MM[:SS][±HH:MM]` time-of-day part of an ISO string. -/
def parseIsoTime (l : List Char) : Option (Nat × Nat × Nat × Option Int) := do
  let (h, l) ← parse2Digits l
  let l ← expectChar ':' l
  let (mi, l) ← parse2Digits l
  let (s, l) ← parseOptSeconds l
  if l = [] then
    some (h, mi, s, none)
  else
    match parseIsoOffset l with
    | some off => some (h, mi, s, some off)
    | none => none

/-- `datetime.fromisoformat` on the forms the engine feeds it:
`YYYY-MM-DD[{T,space}HH:MM[:SS][±HH:MM]]`.  Returns the parsed components
together with the UTC offset in minutes when one was written. -/
def parseIsoChars (l : List Char) : Option (DateTime × Option Int) := do
  let (y, l) ← parse4Digits l
  let l ← expectChar '-' l
  let (mo, l) ← parse2Digits l
  let l ← expectChar '-' l
  let (d, l) ← parse2Digits l
  match l with
  | [] => (mkValidDateTime y mo d 0 0 0).map (fun dt => (dt, none))
  | sep :: rest =>
    if sep = 'T' ∨ sep = ' ' then
      match parseIsoTime rest with
      | some (h, mi, s, off) => (mkValidDateTime y mo d h mi s).map (fun dt => (dt, off))
      | none => none
    else none

/-- `s.replace("Z", "+00:00")`. -/
def replaceZChars : List Char → List Char
  | [] => []
  | c :: rest =>
    if c = 'Z' then '+' :: '0' :: '0' :: ':' :: '0' :: '0' :: replaceZChars rest
    else c :: replaceZChars rest

/-- `datetime.fromisoformat(s.replace("Z", "+00:00"))`. -/
def parseIsoZ (s : String) : Option (DateTime × Option Int) :=
  parseIsoChars (replaceZChars s.data)

def monthNames : List (List Char × Nat) :=
  [("Jan".data, 1), ("Feb".data, 2), ("Mar".data, 3), ("Apr".data, 4),
   ("May".data, 5), ("Jun".data, 6), ("Jul".data, 7), ("Aug".data, 8),
   ("Sep".data, 9), ("Oct".data, 10), ("Nov".data, 11), ("Dec".data, 12)]

def dayNames : List (List Char) :=
  ["Mon".data, "Tue".data, "Wed".data, "Thu".data, "Fri".data, "Sat".data, "Sun".data]

/-- Match one of a list of literal alternatives, returning a value. -/
def matchAlts {α : Type} : List (List Char × α) → List Char → Option (α × List Char)
  | [], _ => none
  | (pat, v) :: alts, l =>
    match expectSeq pat l with
    | some rest => some (v, rest)
    | none => matchAlts alts l

/-- The `%d %b %Y` day-month-year part of an RFC-822 date. -/
def parseRFC822Date (l : List Char) : Option (Nat × Nat × Nat × List Char) := do
  let (d, l) ← parseDay2 l
  let l ← expectChar ' ' l
  let (mo, l) ← matchAlts monthNames l
  let l ← expectChar ' ' l
  let (y, l) ← parse4Digits l
  some (d, mo, y, l)

/-- The `%H:%M:%S` part of an RFC-822 date. -/
def parseRFC822Time (l : List Char) : Option (Nat × Nat × Nat × List Char) := do
  let (h, l) ← parseHour2 l
  let l ← expectChar ':' l
  let (mi, l) ← parseMinSec2 l
  let l ← expectChar ':' l
  let (s, l) ← parseMinSec2 l
  some (h, mi, s, l)

/-- `strptime(s, "%a, %d %b %Y %H:%M:%S %Z")`: the RFC-822-style mail date
format tried by `_format_timestamp`; `%Z` accepts the UTC/GMT names. -/
def strptimeRFC822Chars (l : List Char) : Option DateTime := do
  let (_, l) ← matchAlts (dayNames.map (fun d => (d, ()))) l
  let l ← expectSeq [',', ' '] l
  let (d, mo, y, l) ← parseRFC822Date l
  let l ← expectChar ' ' l
  let (h, mi, s, l) ← parseRFC822Time l
  let l ← expectChar ' ' l
  let (_, l) ← matchAlts [("GMT".data, ()), ("UTC".data, ())] l
  if l = [] then mkValidDateTime y mo d h mi s else none

def strptimeRFC822 (s : String) : Option DateTime := strptimeRFC822Chars s.data

/-- The zone suffix of an RFC-822 date: a UTC-equivalent zone name or a
numeric `±HHMM` offset, as minutes east of UTC. -/
def parseRFC822Zone (l : List Char) : Option Int :=
  match matchAlts [("GMT".data, (0 : Int)), ("UTC".data, 0), ("UT".data, 0)] l with
  | some (_, rest) => if rest = [] then some 0 else none
  | none =>
    match l with
    | sign :: r2 =>
      if sign = '+' ∨ sign = '-' then
        match parse2Digits r2 with
        | none => none
        | some (oh, r2) =>
          match parse2Digits r2 with
          | none => none
          | some (om, r2) =>
            if r2 = [] ∧ om ≤ 59 then
              some (if sign = '-' then -(oh * 60 + om : Int) else (oh * 60 + om : Int))
            else none
      else none
    | [] => none

/-- Strip an optional `"Ddd, "` weekday prefix. -/
def dropWeekday (l : List Char) : List Char :=
  match matchAlts (dayNames.map (fun d => (d, ()))) l with
  | some (_, rest) =>
    match expectSeq [',', ' '] rest with
    | some rest2 => rest2
    | none => rest
  | none => l

/-- `email.utils.parsedate_to_datetime` followed by
`.astimezone(timezone.utc)`: an RFC-822 date with optional weekday prefix and
either a zone name or a numeric `±HHMM` offset (normalized to UTC). -/
def parsedate_to_datetime (s : String) : Option DateTime := do
  let l := dropWeekday s.data
  let (d, mo, y, l) ← parseRFC822Date l
  let l ← expectChar ' ' l
  let (h, l) ← parseHour2 l
  let l ← expectChar ':' l
  let (mi, l) ← parseMinSec2 l
  let (s2, l) ← parseOptSeconds l
  let l ← expectChar ' ' l
  match parseRFC822Zone l with
  | some off => (mkValidDateTime y mo d h mi s2).map (fun dt => shiftMinutes dt (-off))
  | none => none

/-! ### The Timestamp Normalizer (`_format_timestamp` / `_parse_datetime`) -/

/-- `_format_timestamp`: ISO-8601 first (after `Z` replacement), then the
RFC-822 `strptime` format; on success the canonical `%Y-%m-%d %H:%M UTC`
rendering of the parsed components, on an empty/absent input the literal
`"Unknown date"`, and on any other failure the raw input itself. -/
def _format_timestamp (timestamp : Option String) : String :=
  match timestamp with
  | none => "Unknown date"
  | some s =>
    if s = "" then "Unknown date"
    else
      match parseIsoZ s with
      | some (dt, _) => strftimeCanonical dt
      | none =>
        match strptimeRFC822 s with
        | some dt => strftimeCanonical dt
        | none => s

/-- The parse attempts of `_parse_datetime`, in order: the canonical display
format, the `%Y-%m-%dT%H:%M:%SZ` format, then `fromisoformat` (with `Z`
replacement; an attached offset is not applied, matching the source, which
compares the returned value as-is). -/
def parseDatetimeOpt (s : String) : Option DateTime :=
  (parseFmt1Chars s.data).orElse fun _ =>
    (parseFmt2Chars s.data).orElse fun _ =>
      (parseIsoZ s).map Prod.fst

/-- `_parse_datetime`: the orderable time of a display string; `datetime.min`
for an absent/empty input, the `"Unknown date"` placeholder, or any string
none of the formats parse. -/
def _parse_datetime (timestamp : Option String) : DateTime :=
  match timestamp with
  | none => datetimeMin
  | some s =>
    if s = "" ∨ s = "Unknown date" then datetimeMin
    else (parseDatetimeOpt s).getD datetimeMin

/-- The raw publication-date values `_coerce_datetime` receives from the
JSON payloads: absent, a string, or a bare year. -/
inductive RawDate where
  | noneRaw
  | strRaw (s : String)
  | intRaw (y : Nat)
deriving DecidableEq, Repr

def rawStr : RawDate → String
  | .noneRaw => ""
  | .strRaw s => s
  | .intRaw y => toString y

/-- One `fromisoformat` candidate attempt inside `_coerce_datetime`,
including the final `.astimezone(timezone.utc)` (the system timezone is
modelled as UTC, so a naive parse is left unchanged). -/
def coerceCandidate (c : String) : Option DateTime :=
  (parseIsoZ c).map (fun p => shiftMinutes p.1 (-(p.2.getD 0)))

/-- `_coerce_datetime`: `fromisoformat` over the candidate strings (a bare
integer year also tries `"{year}-01-01"`), then `strptime("%Y-%m-%d")`, then
`parsedate_to_datetime`; `none` when everything fails. -/
def _coerce_datetime (raw : RawDate) : Option DateTime :=
  match raw with
  | .noneRaw => none
  | r =>
    let s := rawStr r
    let cands : List String :=
      match r with
      | .intRaw _ => [s, s ++ "-01-01"]
      | _ => [s]
    (cands.findSome? coerceCandidate).orElse fun _ =>
      (parseYMDChars s.data).orElse fun _ =>
        parsedate_to_datetime s

/-- `_struct_time_to_iso`: a structured time tuple rendered as
`%Y-%m-%dT%H:%M:%SZ` (the `timegm`/`fromtimestamp` round trip is the
identity on UTC components). -/
def _struct_time_to_iso (struct : Option DateTime) : Option String :=
  struct.map (fun dt => String.mk (isoZChars dt))

/-! ### Context records and the Record Builder -/

/-- A provider-specific extra value stored under `metadata`: either a single
(possibly null) string field or a list of strings (authors). -/
inductive MetaValue where
  | str (value : Option String)
  | strList (values : List String)
deriving DecidableEq, Repr

/-- The canonical context record (`ContextItem` dict) produced by
`_build_context_item`. -/
structure ContextItem where
  provider : String
  source : String
  title : String
  summary : String
  url : Option String
  published_at : String
  content : String
  metadata : Option (List (String × MetaValue)) := none
deriving DecidableEq, Repr

/-- Python `x or default` on an optional string: the empty string and `None`
are both falsy. -/
def orDefault (x : Option String) (default : String) : String :=
  match x with
  | some s => if s = "" then default else s
  | none => default

/-- Python `x or y` where both operands are optional strings. -/
def orOptStr (x y : Option String) : Option String :=
  match x with
  | some s => if s = "" then y else some s
  | none => y

/-- `_build_context_item`: field defaults applied by truthiness, and
`metadata` attached only for a truthy (non-empty) `extra` mapping. -/
def _build_context_item (provider : String) (source title summary url published_at
    content : Option String) (extra : Option (List (String × MetaValue)) := none) :
    ContextItem :=
  { provider := provider
    source := orDefault source provider
    title := orDefault title "Untitled"
    summary := orDefault summary ""
    url := url
    published_at := orDefault published_at "Unknown date"
    content := orDefault content (orDefault summary "")
    metadata :=
      match extra with
      | some l => if l = [] then none else some l
      | none => none }

/-- Remainder of `l` after a literal pattern, `none` when the pattern is not
a prefix. -/
def stripPattern : List Char → List Char → Option (List Char)
  | [], l => some l
  | _ :: _, [] => none
  | p :: ps, c :: cs => if c = p then stripPattern ps cs else none

/-- Scanning pass of `str.replace`; the fuel argument, set to the input
length, only bounds the recursion (a successful `stripPattern` consumes at
least one character, so the fuel never runs out before the input does). -/
def replacePatternAux (p : Char) (ps rep : List Char) : Nat → List Char → List Char
  | 0, l => l
  | _ + 1, [] => []
  | fuel + 1, c :: rest =>
    match stripPattern (p :: ps) (c :: rest) with
    | some rem => rep ++ replacePatternAux p ps rep fuel rem
    | none => c :: replacePatternAux p ps rep fuel rest

/-- `s.replace(old, new)` for a non-empty literal `old`, on character
lists. -/
def replacePattern (p : Char) (ps rep : List Char) (l : List Char) : List Char :=
  replacePatternAux p ps rep l.length l

def isSpaceChar (c : Char) : Bool :=
  c = ' ' || c = '\t' || c = '\n' || c = '\r'

/-- Python `str.strip()`: trim leading/trailing whitespace. -/
def stripChars (l : List Char) : List Char :=
  ((l.dropWhile isSpaceChar).reverse.dropWhile isSpaceChar).reverse

/-- `_strip_html`: replace a fixed small set of block-level tags by spaces
and strip the ends; empty or absent input yields the empty string. -/
def _strip_html (text : Option String) : String :=
  match text with
  | none => ""
  | some t =>
    if t = "" then ""
    else
      let l := replacePattern '<' "p>".data [' '] t.data
      let l := replacePattern '<' "/p>".data [' '] l
      let l := replacePattern '<' "br>".data [' '] l
      let l := replacePattern '<' "br/>".data [' '] l
      let l := replacePattern '<' "br />".data [' '] l
      String.mk (stripChars l)

def asciiLowerChar (c : Char) : Char :=
  if 65 ≤ c.toNat ∧ c.toNat ≤ 90 then Char.ofNat (c.toNat + 32) else c

def asciiUpperChar (c : Char) : Char :=
  if 97 ≤ c.toNat ∧ c.toNat ≤ 122 then Char.ofNat (c.toNat - 32) else c

/-- `str.lower()` (ASCII range, which covers the engine's queries). -/
def asciiLower (s : String) : String := String.mk (s.data.map asciiLowerChar)

/-- `str.upper()` (ASCII range). -/
def asciiUpper (s : String) : String := String.mk (s.data.map asciiUpperChar)

/-- Whether `pre` is a leading segment of `l`. -/
def startsWithSeq : List Char → List Char → Bool
  | _, [] => true
  | [], _ :: _ => false
  | c :: cs, p :: ps => c = p && startsWithSeq cs ps

/-- Python's `needle in haystack` substring test. -/
def containsSub (haystack needle : List Char) : Bool :=
  match haystack with
  | [] => needle.isEmpty
  | _ :: rest => startsWithSeq haystack needle || containsSub rest needle

/-! ### The Aggregator (`fetch_context_items`)

Each adapter either returned a record list or raised; `asyncio.gather` with
`return_exceptions=True` is modelled by a list of `Except` outcomes, in task
order. -/

/-- The collect phase: skip adapter outcomes that are exceptions, flatten the
rest in order. -/
def collectResults (chunks : List (Except String (List ContextItem))) : List ContextItem :=
  chunks.foldl
    (fun acc chunk =>
      match chunk with
      | .error _ => acc
      | .ok items => acc ++ items)
    []

/-- The orderable time of a record, as used for dedup resolution and
ranking. -/
def itemOrderKey (it : ContextItem) : Nat :=
  dtKey (_parse_datetime (some it.published_at))

/-- `item.get("url") or f"{title}::{source}"`. -/
def dedupKey (it : ContextItem) : String :=
  match it.url with
  | some u => if u = "" then it.title ++ "::" ++ it.source else u
  | none => it.title ++ "::" ++ it.source

/-- First value stored under a key in an insertion-ordered dict. -/
def lookupEntry (k : String) : List (String × ContextItem) → Option ContextItem
  | [] => none
  | e :: rest => if e.1 = k then some e.2 else lookupEntry k rest

/-- Dict assignment to an existing key: the value changes, the insertion
position does not. -/
def replaceEntry (k : String) (v : ContextItem) :
    List (String × ContextItem) → List (String × ContextItem)
  | [] => []
  | e :: rest => if e.1 = k then (e.1, v) :: rest else e :: replaceEntry k v rest

/-- One step of the dedup loop: insert an unseen key at the end, replace the
held record only when the new record's normalized timestamp is strictly more
recent. -/
def dedupStep (acc : List (String × ContextItem)) (item : ContextItem) :
    List (String × ContextItem) :=
  let k := dedupKey item
  match lookupEntry k acc with
  | none => acc ++ [(k, item)]
  | some existing =>
    if itemOrderKey existing < itemOrderKey item then replaceEntry k item acc else acc

/-- The dedup phase over the collected records, as an insertion-ordered
association list. -/
def dedupItems (items : List ContextItem) : List (String × ContextItem) :=
  items.foldl dedupStep []

/-- `a` may be ranked no later than `b`: descending by normalized
timestamp.  `sorted(key=..., reverse=True)` is a stable descending sort, and
a stable sort is extensionally unique, so Mathlib's (stable) insertion sort
with this relation computes exactly Python's result. -/
def recencyRel (a b : ContextItem) : Prop := itemOrderKey b ≤ itemOrderKey a

instance : DecidableRel recencyRel := fun a b => Nat.decLe _ _

instance : IsTotal ContextItem recencyRel :=
  ⟨fun a b => Nat.le_total (itemOrderKey b) (itemOrderKey a)⟩

instance : IsTrans ContextItem recencyRel :=
  ⟨fun _ _ _ h1 h2 => Nat.le_trans h2 h1⟩

/-- `fetch_context_items`: collect the adapter outcomes, deduplicate keeping
the most recent record per key, rank by recency descending, truncate to
`limit`. -/
def fetch_context_items (chunks : List (Except String (List ContextItem)))
    (limit : Nat := 8) : List ContextItem :=
  let results := collectResults chunks
  let deduped := dedupItems results
  let sorted_items := List.insertionSort recencyRel (deduped.map Prod.snd)
  sorted_items.take limit

/-! ### Semantic Scholar (`_parse_semantic_scholar_payload`) -/

/-- One paper object of the search payload (`authors` holds each author
entry's `name` field, `none` for a malformed or nameless entry). -/
structure SSPaper where
  title : Option String
  abstract : Option String
  url : Option String
  venue : Option String
  publicationDate : Option String
  year : Option Nat
  authors : List (Option String)
deriving DecidableEq, Repr

structure SSPayload where
  data : List SSPaper
deriving DecidableEq, Repr

/-- `paper.get("publicationDate") or paper.get("year")`. -/
def ssRawDate (p : SSPaper) : RawDate :=
  let yearRaw : RawDate :=
    match p.year with
    | some y => if y = 0 then .noneRaw else .intRaw y
    | none => .noneRaw
  match p.publicationDate with
  | some s => if s = "" then yearRaw else .strRaw s
  | none => yearRaw

/-- The truthy author names of a paper. -/
def ssAuthors (p : SSPaper) : List String :=
  p.authors.filterMap fun a =>
    match a with
    | some n => if n = "" then none else some n
    | none => none

/-- The record built for one retained Semantic Scholar paper. -/
def ssItem (p : SSPaper) (published_dt : Option DateTime) : ContextItem :=
  _build_context_item "semantic_scholar"
    (some (orDefault p.venue "Semantic Scholar"))
    p.title p.abstract p.url
    (some (_format_timestamp (published_dt.map isoformatUTC)))
    p.abstract
    (if ssAuthors p = [] then none else some [("authors", MetaValue.strList (ssAuthors p))])

/-- The Semantic Scholar result loop: drop papers dated before the cutoff,
keep the rest (dated or undated), stop once `max_results` records have been
collected. -/
def ssLoop (cutoff : DateTime) (maxResults : Nat) :
    List SSPaper → List ContextItem → List ContextItem
  | [], acc => acc
  | p :: ps, acc =>
    match _coerce_datetime (ssRawDate p) with
    | some dt =>
      if dtKey dt < dtKey cutoff then ssLoop cutoff maxResults ps acc
      else
        let acc2 := acc ++ [ssItem p (some dt)]
        if maxResults ≤ acc2.length then acc2 else ssLoop cutoff maxResults ps acc2
    | none =>
      let acc2 := acc ++ [ssItem p none]
      if maxResults ≤ acc2.length then acc2 else ssLoop cutoff maxResults ps acc2

/-- `_parse_semantic_scholar_payload`; `now` stands for
`datetime.now(timezone.utc)`. -/
def _parse_semantic_scholar_payload (payload : SSPayload) (maxResults : Nat)
    (maxAgeDays : Nat) (now : DateTime) : List ContextItem :=
  ssLoop (subDays now maxAgeDays) maxResults payload.data []

/-! ### Crossref (`_parse_crossref_payload`, `_extract_crossref_date`) -/

/-- A `date-parts` bearing field of a Crossref item (`none` models an absent
key or a non-dict value). -/
structure CRDateInfo where
  dateParts : Option (List (List Int))
deriving DecidableEq, Repr

/-- One work item of `payload["message"]["items"]`. -/
structure CRItem where
  title : List String
  abstract : Option String
  URL : Option String
  DOI : Option String
  containerTitle : List String
  publishedOnline : Option CRDateInfo
  publishedPrint : Option CRDateInfo
  issued : Option CRDateInfo
  created : Option CRDateInfo
deriving DecidableEq, Repr

/-- Try one date field: skip absent info, empty parts, or an empty first
part; missing month/day default to 1; out-of-range parts (where `datetime`
raises) are skipped. -/
def crTryDateInfo (info : Option CRDateInfo) : Option DateTime :=
  match info with
  | none => none
  | some di =>
    match di.dateParts with
    | none => none
    | some [] => none
    | some (part :: _) =>
      match part with
      | [] => none
      | y :: ms => mkValidDateTimeInt y (ms.headD 1) ((ms.drop 1).headD 1)

/-- `_extract_crossref_date`: the four date keys in preference order. -/
def _extract_crossref_date (item : CRItem) : Option DateTime :=
  (crTryDateInfo item.publishedOnline).orElse fun _ =>
    (crTryDateInfo item.publishedPrint).orElse fun _ =>
      (crTryDateInfo item.issued).orElse fun _ =>
        crTryDateInfo item.created

/-- The record built for one retained Crossref item. -/
def crItemRecord (item : CRItem) (published_dt : Option DateTime) : ContextItem :=
  let summary : String :=
    match item.abstract with
    | some a => if a = "" then "" else _strip_html (some a)
    | none => ""
  _build_context_item "crossref"
    (some (match item.containerTitle.head? with
      | some t => t
      | none => "Crossref"))
    item.title.head?
    (some summary)
    item.URL
    (some (_format_timestamp (published_dt.map isoformatUTC)))
    (some summary)
    (some [("doi", MetaValue.str item.DOI)])

/-- The Crossref result loop: same age filter and `max_results` stop as the
Semantic Scholar loop. -/
def crLoop (cutoff : DateTime) (maxResults : Nat) :
    List CRItem → List ContextItem → List ContextItem
  | [], acc => acc
  | item :: items, acc =>
    match _extract_crossref_date item with
    | some dt =>
      if dtKey dt < dtKey cutoff then crLoop cutoff maxResults items acc
      else
        let acc2 := acc ++ [crItemRecord item (some dt)]
        if maxResults ≤ acc2.length then acc2 else crLoop cutoff maxResults items acc2
    | none =>
      let acc2 := acc ++ [crItemRecord item none]
      if maxResults ≤ acc2.length then acc2 else crLoop cutoff maxResults items acc2

/-- `_parse_crossref_payload` over `payload["message"]["items"]`. -/
def _parse_crossref_payload (items : List CRItem) (maxResults : Nat)
    (maxAgeDays : Nat) (now : DateTime) : List ContextItem :=
  crLoop (subDays now maxAgeDays) maxResults items []

/-! ### Feeds (`feedparser` results, `_parse_rss_feed`,
`_parse_proceedings_feed`) -/

/-- One feed entry as surfaced by `feedparser` (`content` holds the `value`
field of each content element). -/
structure FeedEntry where
  title : Option String
  summary : Option String
  content : List (Option String)
  link : Option String
  published : Option String
  updated : Option String
  published_parsed : Option DateTime
  updated_parsed : Option DateTime
deriving DecidableEq, Repr

/-- A `feedparser.parse` result: the bozo flag and exception, the feed
title, and the extracted entries. -/
structure ParsedFeed where
  bozo : Bool
  bozo_exception : Option String
  feedTitle : Option String
  entries : List FeedEntry
deriving DecidableEq, Repr

/-- `entry.published or entry.updated or iso(published_parsed) or
iso(updated_parsed)`. -/
def entryPublished (e : FeedEntry) : Option String :=
  orOptStr e.published (orOptStr e.updated
    (orOptStr (_struct_time_to_iso e.published_parsed) (_struct_time_to_iso e.updated_parsed)))

/-- The summary of an RSS entry, falling back to the first content element's
value. -/
def rssSummary (e : FeedEntry) : String :=
  let fallback : Option String := (e.content.head?).getD none
  let s : Option String :=
    match e.summary with
    | some s => if s = "" then fallback else some s
    | none => fallback
  orDefault s ""

/-- The record built for one RSS entry. -/
def rssEntryItem (feed_title : String) (e : FeedEntry) : ContextItem :=
  _build_context_item "rss" (some feed_title)
    (some (orDefault e.title "Untitled"))
    (some (_strip_html (some (rssSummary e))))
    e.link
    (some (_format_timestamp (entryPublished e)))
    (some (_strip_html (some (rssSummary e))))

/-- Raise condition shared by the two feed parsers: a bozo feed whose parse
exception is set and from which no entries could be extracted. -/
def feedParseFails (parsed : ParsedFeed) : Prop :=
  parsed.bozo = true ∧ parsed.bozo_exception.isSome ∧ parsed.entries = []

instance (parsed : ParsedFeed) : Decidable (feedParseFails parsed) := by
  unfold feedParseFails; infer_instance

/-- `_parse_rss_feed`: raises (`Except.error`) exactly on a fatal bozo parse
with no entries; otherwise builds a record per entry, using the feed title
(default `"RSS Feed"`). -/
def _parse_rss_feed (parsed : ParsedFeed) (_feed_url : String) :
    Except String (List ContextItem) :=
  if feedParseFails parsed then
    .error (parsed.bozo_exception.getD "")
  else
    let feed_title := orDefault parsed.feedTitle "RSS Feed"
    .ok (parsed.entries.map (rssEntryItem feed_title))

/-- The record built for one proceedings entry. -/
def procEntryItem (provider feed_title : String) (e : FeedEntry) : ContextItem :=
  _build_context_item provider (some feed_title)
    (some (orDefault e.title "Untitled"))
    (some (_strip_html (some (orDefault e.summary ""))))
    e.link
    (some (_format_timestamp (entryPublished e)))
    (some (_strip_html (some (orDefault e.summary ""))))

/-- The published value of an entry as handed to `_coerce_datetime`. -/
def entryRawDate (e : FeedEntry) : RawDate :=
  match entryPublished e with
  | some s => .strRaw s
  | none => .noneRaw

/-- The proceedings entry loop: drop entries dated before the cutoff, keep
dated-recent and undated entries. -/
def procLoop (provider feed_title : String) (cutoff : DateTime) :
    List FeedEntry → List ContextItem
  | [] => []
  | e :: es =>
    match _coerce_datetime (entryRawDate e) with
    | some dt =>
      if dtKey dt < dtKey cutoff then procLoop provider feed_title cutoff es
      else procEntryItem provider feed_title e :: procLoop provider feed_title cutoff es
    | none => procEntryItem provider feed_title e :: procLoop provider feed_title cutoff es

/-- `_parse_proceedings_feed`: same raise condition as `_parse_rss_feed`;
otherwise the age-filtered entry records, with the feed title defaulting to
the upper-cased provider name. -/
def _parse_proceedings_feed (parsed : ParsedFeed) (_feed_url : String) (provider : String)
    (maxAgeDays : Nat) (now : DateTime) : Except String (List ContextItem) :=
  if feedParseFails parsed then
    .error (parsed.bozo_exception.getD "")
  else
    let feed_title := orDefault parsed.feedTitle (asciiUpper provider)
    .ok (procLoop provider feed_title (subDays now maxAgeDays) parsed.entries)

/-! ### The topic-RSS adapter (`fetch_rss_articles`) -/

/-- The query match test: the lower-cased query occurs in the lower-cased
`"{title} {summary}"` haystack. -/
def rssMatches (query_lower : String) (it : ContextItem) : Bool :=
  containsSub ((asciiLower (it.title ++ " " ++ it.summary)).data) query_lower.data

/-- The per-feed matching loop: append each matching item, stop once
`max_articles` matches are held. -/
def rssInner (query_lower : String) (maxArticles : Nat) :
    List ContextItem → List ContextItem → List ContextItem
  | [], acc => acc
  | it :: its, acc =>
    if rssMatches query_lower it then
      let acc2 := acc ++ [it]
      if maxArticles ≤ acc2.length then acc2 else rssInner query_lower maxArticles its acc2
    else rssInner query_lower maxArticles its acc

/-- The records of one configured feed, `none` when that feed is skipped:
its HTTP fetch raised, or its body parse raised (both `except` arms of the
fetch loop `continue`). -/
def rssFeedItems (url : String) (resp : Except String ParsedFeed) :
    Option (List ContextItem) :=
  match resp with
  | .error _ => none
  | .ok parsed =>
    match _parse_rss_feed parsed url with
    | .error _ => none
    | .ok items => some items

/-- The outer feed loop: skip a feed whose fetch raised or whose body parse
raised, otherwise scan its items; stop early once enough matches are
held. -/
def rssOuter (query_lower : String) (maxArticles : Nat) :
    List (String × Except String ParsedFeed) → List ContextItem → List ContextItem
  | [], acc => acc
  | (url, resp) :: rest, acc =>
    match rssFeedItems url resp with
    | none => rssOuter query_lower maxArticles rest acc
    | some items =>
      let acc2 := rssInner query_lower maxArticles items acc
      if maxArticles ≤ acc2.length then acc2
      else rssOuter query_lower maxArticles rest acc2

/-- `fetch_rss_articles`: `feeds` pairs each configured feed URL with its
fetch outcome (`TECH_RSS_FEEDS` zipped with the gathered responses). -/
def fetch_rss_articles (query : String) (feeds : List (String × Except String ParsedFeed))
    (maxArticles : Nat := 3) : List ContextItem :=
  if feeds.isEmpty || query == "" then []
  else rssOuter (asciiLower query) maxArticles feeds []

/-! ### The proceedings adapter (`fetch_conference_proceedings`) -/

/-- The records of one proceedings feed, `none` when the fetch raised or
the body parse raised. -/
def procFeedItems (maxAgeDays : Nat) (now : DateTime)
    (feed : String × Except String ParsedFeed) : Option (List ContextItem) :=
  match feed.2 with
  | .error _ => none
  | .ok parsed =>
    match _parse_proceedings_feed parsed "" feed.1 maxAgeDays now with
    | .error _ => none
    | .ok its => some its

/-- `fetch_conference_proceedings`: `feeds` pairs each configured feed's
provider name with its fetch outcome (`PROCEEDINGS_FEEDS` zipped with the
gathered responses, the URL playing no role beyond logging).  A failed fetch
or a raising body parse skips that one feed; the merged items are re-sorted
by recency and truncated. -/
def fetch_conference_proceedings (feeds : List (String × Except String ParsedFeed))
    (maxItems : Nat := 3) (maxAgeDays : Nat := 365) (now : DateTime := datetimeMin) :
    List ContextItem :=
  if feeds.isEmpty then []
  else
    let items := feeds.foldl
      (fun acc feed =>
        match procFeedItems maxAgeDays now feed with
        | none => acc
        | some its => acc ++ its)
      []
    (List.insertionSort recencyRel items).take maxItems

/-! ### The GitHub releases adapter (`fetch_github_releases`) -/

/-- The repository fields used by the release loop. -/
structure GHRepo where
  owner : String
  name : String
  full_name : Option String
  description : Option String
  html_url : Option String
deriving DecidableEq, Repr

/-- The release fields used to build a record. -/
structure GHRelease where
  name : Option String
  body : Option String
  html_url : Option String
  tag_name : Option String
  published_at : Option String
  created_at : Option String
deriving DecidableEq, Repr

/-- The outcome of one repository's latest-release lookup: a 404 status, any
other exception raised by the request, or a release payload. -/
inductive ReleaseLookup where
  | notFound
  | failed (message : String)
  | ok (release : GHRelease)
deriving DecidableEq, Repr

/-- The record built for one release. -/
def githubReleaseItem (repo : GHRepo) (release : GHRelease) : ContextItem :=
  _build_context_item "github"
    (some (repo.owner ++ "/" ++ repo.name))
    (orOptStr release.name repo.full_name)
    (orOptStr release.body repo.description)
    (orOptStr release.html_url repo.html_url)
    (some (_format_timestamp (orOptStr release.published_at release.created_at)))
    release.body
    (some [("tag_name", MetaValue.str release.tag_name)])

/-- The per-repository loop: a 404 or a failed lookup contributes nothing
and moves on; a found release is appended. -/
def githubLoop : List (GHRepo × ReleaseLookup) → List ContextItem
  | [] => []
  | (_, .notFound) :: rest => githubLoop rest
  | (_, .failed _) :: rest => githubLoop rest
  | (repo, .ok release) :: rest => githubReleaseItem repo release :: githubLoop rest

/-- `fetch_github_releases`: `repos` pairs each repository returned by the
search with its latest-release lookup outcome; the search result list is
truncated to `max_repos` before the lookups. -/
def fetch_github_releases (query : String) (repos : List (GHRepo × ReleaseLookup))
    (maxRepos : Nat := 2) : List ContextItem :=
  if query = "" then [] else githubLoop (repos.take maxRepos)

/-! ### Theorems -/

/-- C5: `fetch_context_items(query, limit=N)` returns at most `N` records
for every adapter outcome, and omitting the limit argument is the same as
passing the default `8`. -/
theorem fetch_context_items_bounded (chunks : List (Except String (List ContextItem)))
    (limit : Nat) :
    (fetch_context_items chunks limit).length ≤ limit ∧
    fetch_context_items chunks = fetch_context_items chunks 8 := by
  refine ⟨?_, rfl⟩
  unfold fetch_context_items
  simp

lemma collectResults_aux_all_error (chunks : List (Except String (List ContextItem)))
    (acc : List ContextItem) (h : ∀ c ∈ chunks, ∃ e, c = .error e) :
    chunks.foldl
      (fun acc chunk =>
        match chunk with
        | .error _ => acc
        | .ok items => acc ++ items)
      acc = acc := by
  induction chunks generalizing acc with
  | nil => rfl
  | cons c rest ih =>
    obtain ⟨e, he⟩ := h c (List.mem_cons_self c rest)
    subst he
    exact ih acc fun c hc => h c (List.mem_cons_of_mem _ hc)

/-- C2: an adapter outcome that is an exception is skipped — it contributes
no records, and both the merged collection and the final output are exactly
what they would be without that adapter; when every adapter fails the
aggregation degrades to the empty list instead of an error. -/
theorem fetch_context_items_error_isolation :
    (∀ (l1 l2 : List (Except String (List ContextItem))) (e : String) (limit : Nat),
      collectResults (l1 ++ .error e :: l2) = collectResults (l1 ++ l2) ∧
      fetch_context_items (l1 ++ .error e :: l2) limit = fetch_context_items (l1 ++ l2) limit) ∧
    (∀ (chunks : List (Except String (List ContextItem))) (limit : Nat),
      (∀ c ∈ chunks, ∃ e, c = .error e) → fetch_context_items chunks limit = []) := by
  have hskip : ∀ (l1 l2 : List (Except String (List ContextItem))) (e : String),
      collectResults (l1 ++ .error e :: l2) = collectResults (l1 ++ l2) := by
    intro l1 l2 e
    unfold collectResults
    rw [List.foldl_append, List.foldl_append, List.foldl_cons]
  refine ⟨fun l1 l2 e limit => ⟨hskip l1 l2 e, ?_⟩, fun chunks limit h => ?_⟩
  · unfold fetch_context_items
    rw [hskip]
  · unfold fetch_context_items
    unfold collectResults
    rw [collectResults_aux_all_error chunks [] h]
    simp [dedupItems]

/-- C2 witness: a concrete failing adapter among successes is skipped, and a
total outage yields the empty list. -/
theorem fetch_context_items_error_isolation_witness :
    fetch_context_items [.error "boom", .error "crash"] 8 = [] ∧
    fetch_context_items [.ok [], .error "boom"] 8 = fetch_context_items [.ok []] 8 := by
  refine ⟨fetch_context_items_error_isolation.2 [.error "boom", .error "crash"] 8 ?_, ?_⟩
  · intro c hc
    simp only [List.mem_cons, List.not_mem_nil, or_false] at hc
    rcases hc with h | h <;> exact ⟨_, h⟩
  · exact (fetch_context_items_error_isolation.1 [.ok []] [] "boom" 8).2

/-- C9: the Record Builder's field invariants — every absent field is
replaced by its defined placeholder, and `metadata` is attached only for a
non-empty extras mapping (never as an empty map). -/
theorem build_context_item_invariants (provider : String)
    (source title summary url published_at content : Option String)
    (extra : Option (List (String × MetaValue))) :
    (source = none →
      (_build_context_item provider source title summary url published_at content extra).source
        = provider) ∧
    (title = none →
      (_build_context_item provider source title summary url published_at content extra).title
        = "Untitled") ∧
    (summary = none →
      (_build_context_item provider source title summary url published_at content extra).summary
        = "") ∧
    (published_at = none →
      (_build_context_item provider source title summary url published_at content
        extra).published_at = "Unknown date") ∧
    (content = none →
      (_build_context_item provider source title summary url published_at content extra).content
        = (_build_context_item provider source title summary url published_at content
            extra).summary) ∧
    (∀ m, (_build_context_item provider source title summary url published_at content
        extra).metadata = some m → m ≠ []) ∧
    ((_build_context_item provider source title summary url published_at content
        extra).metadata.isSome → ∃ l, extra = some l ∧ l ≠ []) := by
  refine ⟨?_, ?_, ?_, ?_, ?_, ?_, ?_⟩
  · rintro rfl; rfl
  · rintro rfl; rfl
  · rintro rfl; rfl
  · rintro rfl; rfl
  · rintro rfl; rfl
  · intro m hm
    unfold _build_context_item at hm
    cases extra with
    | none => simp at hm
    | some l =>
      simp only at hm
      split at hm
      · exact absurd hm (by simp)
      · next hne => cases hm; exact fun h => hne (by simpa using h)
  · intro hsome
    unfold _build_context_item at hsome
    cases extra with
    | none => simp [Option.isSome] at hsome
    | some l =>
      refine ⟨l, rfl, fun hnil => ?_⟩
      subst hnil
      simp [Option.isSome] at hsome

/-- C9 witness: the builder at a fully-absent input produces every
placeholder and no metadata. -/
theorem build_context_item_invariants_witness :
    (_build_context_item "newsapi" none none none none none none none).source = "newsapi" ∧
    (_build_context_item "newsapi" none none none none none none none).title = "Untitled" ∧
    (_build_context_item "newsapi" none none none none none none none).summary = "" ∧
    (_build_context_item "newsapi" none none none none none none
      none).published_at = "Unknown date" ∧
    (_build_context_item "newsapi" none none none none none none none).content
      = (_build_context_item "newsapi" none none none none none none none).summary ∧
    ¬ (_build_context_item "newsapi" none none none none none none none).metadata.isSome := by
  have h := build_context_item_invariants "newsapi" none none none none none none none
  refine ⟨h.1 rfl, h.2.1 rfl, h.2.2.1 rfl, h.2.2.2.1 rfl, h.2.2.2.2.1 rfl, ?_⟩
  intro hsome
  obtain ⟨l, hl, _⟩ := h.2.2.2.2.2.2 hsome
  exact Option.noConfusion hl

lemma githubLoop_append (l1 l2 : List (GHRepo × ReleaseLookup)) :
    githubLoop (l1 ++ l2) = githubLoop l1 ++ githubLoop l2 := by
  induction l1 with
  | nil => rfl
  | cons x rest ih =>
    obtain ⟨repo, lookup⟩ := x
    cases lookup <;> simp [githubLoop, ih]

/-- C10: in `fetch_github_releases`, a repository whose latest-release
lookup failed — by 404 or by any exception raised during the request —
contributes no record while the releases of the other searched repositories
are still returned. -/
theorem fetch_github_releases_containment (query : String)
    (l1 l2 : List (GHRepo × ReleaseLookup)) (repo : GHRepo) (bad : ReleaseLookup)
    (maxRepos : Nat)
    (hbad : bad = .notFound ∨ ∃ msg, bad = .failed msg)
    (hlen : (l1 ++ (repo, bad) :: l2).length ≤ maxRepos) :
    fetch_github_releases query (l1 ++ (repo, bad) :: l2) maxRepos
      = fetch_github_releases query (l1 ++ l2) maxRepos := by
  unfold fetch_github_releases
  split
  · rfl
  · rw [List.take_of_length_le hlen, List.take_of_length_le (by simp at hlen ⊢; omega),
      githubLoop_append, githubLoop_append]
    congr 1
    rcases hbad with rfl | ⟨msg, rfl⟩ <;> rfl

/-- C10 witness: a concrete 404 and a concrete raising lookup are each
contained to their own repository. -/
theorem fetch_github_releases_containment_witness :
    fetch_github_releases "q"
      [(⟨"o1", "r1", none, none, none⟩, .ok ⟨some "v1", none, none, none,
        some "2024-01-02T03:04:05Z", none⟩),
       (⟨"o2", "r2", none, none, none⟩, .notFound)] 2
      = fetch_github_releases "q"
        [(⟨"o1", "r1", none, none, none⟩, .ok ⟨some "v1", none, none, none,
          some "2024-01-02T03:04:05Z", none⟩)] 2 ∧
    fetch_github_releases "q" [(⟨"o2", "r2", none, none, none⟩, .failed "500")] 2
      = fetch_github_releases "q" [] 2 := by
  constructor
  · exact fetch_github_releases_containment "q"
      [(⟨"o1", "r1", none, none, none⟩, .ok ⟨some "v1", none, none, none,
        some "2024-01-02T03:04:05Z", none⟩)] []
      ⟨"o2", "r2", none, none, none⟩ .notFound 2 (Or.inl rfl) (by decide)
  · exact fetch_github_releases_containment "q" [] []
      ⟨"o2", "r2", none, none, none⟩ (.failed "500") 2 (Or.inr ⟨"500", rfl⟩) (by decide)

/-- A feed whose records are skipped by the fetch loop: its HTTP fetch
raised, or its body parse raised. -/
def feedOutcomeSkipped (resp : Except String ParsedFeed) : Prop :=
  (∃ msg, resp = .error msg) ∨ ∃ p, resp = .ok p ∧ feedParseFails p

lemma parse_rss_feed_error_iff (parsed : ParsedFeed) (url : String) :
    (∃ e, _parse_rss_feed parsed url = .error e) ↔ feedParseFails parsed := by
  unfold _parse_rss_feed
  split
  · next h => exact ⟨fun _ => h, fun _ => ⟨_, rfl⟩⟩
  · next h =>
    constructor
    · rintro ⟨e, he⟩
      exact Except.noConfusion he
    · exact fun hf => absurd hf h

lemma parse_proceedings_feed_error_iff (parsed : ParsedFeed) (url provider : String)
    (age : Nat) (now : DateTime) :
    (∃ e, _parse_proceedings_feed parsed url provider age now = .error e) ↔
      feedParseFails parsed := by
  unfold _parse_proceedings_feed
  split
  · next h => exact ⟨fun _ => h, fun _ => ⟨_, rfl⟩⟩
  · next h =>
    constructor
    · rintro ⟨e, he⟩
      exact Except.noConfusion he
    · exact fun hf => absurd hf h

lemma parse_rss_feed_proceeds (parsed : ParsedFeed) (url : String)
    (he : parsed.entries ≠ []) :
    _parse_rss_feed parsed url
      = .ok (parsed.entries.map (rssEntryItem (orDefault parsed.feedTitle "RSS Feed"))) := by
  unfold _parse_rss_feed
  rw [if_neg fun hf => he hf.2.2]

lemma parse_proceedings_feed_proceeds (parsed : ParsedFeed) (url provider : String)
    (age : Nat) (now : DateTime) (he : parsed.entries ≠ []) :
    _parse_proceedings_feed parsed url provider age now
      = .ok (procLoop provider (orDefault parsed.feedTitle (asciiUpper provider))
          (subDays now age) parsed.entries) := by
  unfold _parse_proceedings_feed
  rw [if_neg fun hf => he hf.2.2]

lemma rssFeedItems_eq_none (url : String) (resp : Except String ParsedFeed)
    (hbad : feedOutcomeSkipped resp) : rssFeedItems url resp = none := by
  rcases hbad with ⟨msg, rfl⟩ | ⟨p, rfl, hf⟩
  · rfl
  · obtain ⟨e, he⟩ := (parse_rss_feed_error_iff p url).mpr hf
    show (match _parse_rss_feed p url with
      | .error _ => none
      | .ok items => some items) = none
    rw [he]

lemma rssOuter_skip (q : String) (m : Nat) (url : String) (resp : Except String ParsedFeed)
    (hbad : feedOutcomeSkipped resp) (l1 l2 : List (String × Except String ParsedFeed))
    (acc : List ContextItem) :
    rssOuter q m (l1 ++ (url, resp) :: l2) acc = rssOuter q m (l1 ++ l2) acc := by
  induction l1 generalizing acc with
  | nil =>
    simp only [List.nil_append, rssOuter, rssFeedItems_eq_none url resp hbad]
  | cons x t ih =>
    obtain ⟨u2, r2⟩ := x
    simp only [List.cons_append, rssOuter]
    cases rssFeedItems u2 r2 with
    | none => exact ih acc
    | some items =>
      simp only
      split
      · rfl
      · exact ih _

lemma fetch_rss_articles_skip (q : String) (maxA : Nat) (url : String)
    (resp : Except String ParsedFeed) (hbad : feedOutcomeSkipped resp)
    (l1 l2 : List (String × Except String ParsedFeed)) :
    fetch_rss_articles q (l1 ++ (url, resp) :: l2) maxA
      = fetch_rss_articles q (l1 ++ l2) maxA := by
  unfold fetch_rss_articles
  by_cases hq : q = ""
  · simp [hq]
  · rw [if_neg (by simp [hq]), rssOuter_skip (asciiLower q) maxA url resp hbad l1 l2 []]
    cases hll : l1 ++ l2 with
    | nil => simp [rssOuter]
    | cons x xs => rw [if_neg (by simp [hq])]

lemma procFeedItems_eq_none (pr : String) (resp : Except String ParsedFeed)
    (hbad : feedOutcomeSkipped resp) (maxAgeDays : Nat) (now : DateTime) :
    procFeedItems maxAgeDays now (pr, resp) = none := by
  rcases hbad with ⟨msg, rfl⟩ | ⟨p, rfl, hf⟩
  · rfl
  · obtain ⟨e, he⟩ := (parse_proceedings_feed_error_iff p "" pr maxAgeDays now).mpr hf
    show (match _parse_proceedings_feed p "" pr maxAgeDays now with
      | .error _ => none
      | .ok its => some its) = none
    rw [he]

lemma fetch_conference_proceedings_skip (pr : String) (resp : Except String ParsedFeed)
    (hbad : feedOutcomeSkipped resp) (l1 l2 : List (String × Except String ParsedFeed))
    (maxI maxAgeDays : Nat) (now : DateTime) :
    fetch_conference_proceedings (l1 ++ (pr, resp) :: l2) maxI maxAgeDays now
      = fetch_conference_proceedings (l1 ++ l2) maxI maxAgeDays now := by
  unfold fetch_conference_proceedings
  rw [if_neg (by simp)]
  simp only [List.foldl_append, List.foldl_cons,
    procFeedItems_eq_none pr resp hbad maxAgeDays now]
  cases hll : l1 ++ l2 with
  | nil =>
    rcases List.append_eq_nil.mp hll with ⟨rfl, rfl⟩
    simp
  | cons x xs =>
    rw [if_neg (by simp)]

/-- C8: the low-level feed parses raise exactly when the feed is bozo with a
parse exception and no extracted entries; a feed that is bozo but still
yields entries proceeds with just those entries; and in both feed-fetching
adapters a fetch failure or a raising body parse skips only that one feed,
leaving the records of the remaining feeds unchanged. -/
theorem feed_parse_error_policy :
    (∀ (parsed : ParsedFeed) (url : String),
      (∃ e, _parse_rss_feed parsed url = .error e) ↔
        (parsed.bozo = true ∧ parsed.bozo_exception.isSome ∧ parsed.entries = [])) ∧
    (∀ (parsed : ParsedFeed) (url provider : String) (age : Nat) (now : DateTime),
      (∃ e, _parse_proceedings_feed parsed url provider age now = .error e) ↔
        (parsed.bozo = true ∧ parsed.bozo_exception.isSome ∧ parsed.entries = [])) ∧
    (∀ (parsed : ParsedFeed) (url : String), parsed.entries ≠ [] →
      _parse_rss_feed parsed url
        = .ok (parsed.entries.map (rssEntryItem (orDefault parsed.feedTitle "RSS Feed")))) ∧
    (∀ (parsed : ParsedFeed) (url provider : String) (age : Nat) (now : DateTime),
      parsed.entries ≠ [] →
      _parse_proceedings_feed parsed url provider age now
        = .ok (procLoop provider (orDefault parsed.feedTitle (asciiUpper provider))
            (subDays now age) parsed.entries)) ∧
    (∀ (q : String) (maxA : Nat) (url : String) (resp : Except String ParsedFeed)
      (l1 l2 : List (String × Except String ParsedFeed)), feedOutcomeSkipped resp →
      fetch_rss_articles q (l1 ++ (url, resp) :: l2) maxA
        = fetch_rss_articles q (l1 ++ l2) maxA) ∧
    (∀ (pr : String) (resp : Except String ParsedFeed)
      (l1 l2 : List (String × Except String ParsedFeed)) (maxI age : Nat) (now : DateTime),
      feedOutcomeSkipped resp →
      fetch_conference_proceedings (l1 ++ (pr, resp) :: l2) maxI age now
        = fetch_conference_proceedings (l1 ++ l2) maxI age now) :=
  ⟨parse_rss_feed_error_iff,
   parse_proceedings_feed_error_iff,
   parse_rss_feed_proceeds,
   parse_proceedings_feed_proceeds,
   fun q maxA url resp l1 l2 hbad => fetch_rss_articles_skip q maxA url resp hbad l1 l2,
   fun pr resp l1 l2 maxI age now hbad =>
     fetch_conference_proceedings_skip pr resp hbad l1 l2 maxI age now⟩

/-- C8 witness: a concrete bozo feed with no entries raises; a concrete
bozo feed with one entry proceeds; a concrete failed fetch is skipped in
both adapters. -/
theorem feed_parse_error_policy_witness :
    (∃ e, _parse_rss_feed ⟨true, some "not well-formed (invalid token)", none, []⟩ "u"
      = Except.error e) ∧
    _parse_rss_feed ⟨true, some "warn", some "Feed",
        [⟨some "T", some "S", [], none, none, none, none, none⟩]⟩ "u"
      = Except.ok ([(⟨some "T", some "S", [], none, none, none, none, none⟩ : FeedEntry)].map
          (rssEntryItem (orDefault (some "Feed") "RSS Feed"))) ∧
    fetch_rss_articles "q" [("u", Except.error "timeout")] 3 = fetch_rss_articles "q" [] 3 ∧
    fetch_conference_proceedings [("neurips", Except.error "timeout")] 3 365 datetimeMin
      = fetch_conference_proceedings [] 3 365 datetimeMin := by
  refine ⟨(feed_parse_error_policy.1 _ "u").mpr ⟨rfl, rfl, rfl⟩, ?_, ?_, ?_⟩
  · exact feed_parse_error_policy.2.2.1 _ "u" (by decide)
  · exact feed_parse_error_policy.2.2.2.2.1 "q" 3 "u" (Except.error "timeout") [] []
      (Or.inl ⟨"timeout", rfl⟩)
  · exact feed_parse_error_policy.2.2.2.2.2 "neurips" (Except.error "timeout") [] [] 3 365
      datetimeMin (Or.inl ⟨"timeout", rfl⟩)

/-! ### Age-filter lemmas (C6) -/

lemma ssLoop_skip (cutoff : DateTime) (m : Nat) (p : SSPaper) (dt : DateTime)
    (hc : _coerce_datetime (ssRawDate p) = some dt) (hlt : dtKey dt < dtKey cutoff)
    (l1 l2 : List SSPaper) (acc : List ContextItem) :
    ssLoop cutoff m (l1 ++ p :: l2) acc = ssLoop cutoff m (l1 ++ l2) acc := by
  induction l1 generalizing acc with
  | nil =>
    simp only [List.nil_append, ssLoop, hc]
    rw [if_pos hlt]
  | cons q t ih =>
    simp only [List.cons_append, ssLoop]
    cases _coerce_datetime (ssRawDate q) with
    | none =>
      simp only
      split
      · rfl
      · exact ih _
    | some dtq =>
      simp only
      split
      · exact ih acc
      · split
        · rfl
        · exact ih _

lemma ssLoop_prefix (cutoff : DateTime) (m : Nat) (l : List SSPaper) :
    ∀ acc : List ContextItem, ∃ t, ssLoop cutoff m l acc = acc ++ t := by
  induction l with
  | nil => exact fun acc => ⟨[], by simp [ssLoop]⟩
  | cons p ps ih =>
    intro acc
    simp only [ssLoop]
    cases _coerce_datetime (ssRawDate p) with
    | none =>
      simp only
      split
      · exact ⟨[ssItem p none], rfl⟩
      · obtain ⟨t, ht⟩ := ih (acc ++ [ssItem p none])
        exact ⟨[ssItem p none] ++ t, by rw [ht, List.append_assoc]⟩
    | some dt =>
      simp only
      split
      · exact ih acc
      · split
        · exact ⟨[ssItem p (some dt)], rfl⟩
        · obtain ⟨t, ht⟩ := ih (acc ++ [ssItem p (some dt)])
          exact ⟨[ssItem p (some dt)] ++ t, by rw [ht, List.append_assoc]⟩

lemma ssLoop_retains (cutoff : DateTime) (m : Nat) (p : SSPaper)
    (hc : _coerce_datetime (ssRawDate p) = none) (l1 l2 : List SSPaper) :
    ∀ acc : List ContextItem, (ssLoop cutoff m l1 acc).length < m →
      ssItem p none ∈ ssLoop cutoff m (l1 ++ p :: l2) acc := by
  induction l1 with
  | nil =>
    intro acc hlen
    simp only [ssLoop] at hlen
    simp only [List.nil_append, ssLoop, hc]
    split
    · simp
    · obtain ⟨t, ht⟩ := ssLoop_prefix cutoff m l2 (acc ++ [ssItem p none])
      rw [ht]
      simp
  | cons q t ih =>
    intro acc hlen
    rw [List.cons_append]
    cases hq : _coerce_datetime (ssRawDate q) with
    | none =>
      simp only [ssLoop, hq] at hlen ⊢
      split at hlen
      · next hbr => omega
      · next hbr =>
        rw [if_neg hbr]
        exact ih _ hlen
    | some dtq =>
      simp only [ssLoop, hq] at hlen ⊢
      split at hlen
      · next hskip =>
        rw [if_pos hskip]
        exact ih _ hlen
      · next hskip =>
        rw [if_neg hskip]
        split at hlen
        · next hbr => omega
        · next hbr =>
          rw [if_neg hbr]
          exact ih _ hlen

lemma crLoop_skip (cutoff : DateTime) (m : Nat) (item : CRItem) (dt : DateTime)
    (hc : _extract_crossref_date item = some dt) (hlt : dtKey dt < dtKey cutoff)
    (l1 l2 : List CRItem) (acc : List ContextItem) :
    crLoop cutoff m (l1 ++ item :: l2) acc = crLoop cutoff m (l1 ++ l2) acc := by
  induction l1 generalizing acc with
  | nil =>
    simp only [List.nil_append, crLoop, hc]
    rw [if_pos hlt]
  | cons q t ih =>
    simp only [List.cons_append, crLoop]
    cases _extract_crossref_date q with
    | none =>
      simp only
      split
      · rfl
      · exact ih _
    | some dtq =>
      simp only
      split
      · exact ih acc
      · split
        · rfl
        · exact ih _

lemma crLoop_prefix (cutoff : DateTime) (m : Nat) (l : List CRItem) :
    ∀ acc : List ContextItem, ∃ t, crLoop cutoff m l acc = acc ++ t := by
  induction l with
  | nil => exact fun acc => ⟨[], by simp [crLoop]⟩
  | cons p ps ih =>
    intro acc
    simp only [crLoop]
    cases _extract_crossref_date p with
    | none =>
      simp only
      split
      · exact ⟨[crItemRecord p none], rfl⟩
      · obtain ⟨t, ht⟩ := ih (acc ++ [crItemRecord p none])
        exact ⟨[crItemRecord p none] ++ t, by rw [ht, List.append_assoc]⟩
    | some dt =>
      simp only
      split
      · exact ih acc
      · split
        · exact ⟨[crItemRecord p (some dt)], rfl⟩
        · obtain ⟨t, ht⟩ := ih (acc ++ [crItemRecord p (some dt)])
          exact ⟨[crItemRecord p (some dt)] ++ t, by rw [ht, List.append_assoc]⟩

lemma crLoop_retains (cutoff : DateTime) (m : Nat) (item : CRItem)
    (hc : _extract_crossref_date item = none) (l1 l2 : List CRItem) :
    ∀ acc : List ContextItem, (crLoop cutoff m l1 acc).length < m →
      crItemRecord item none ∈ crLoop cutoff m (l1 ++ item :: l2) acc := by
  induction l1 with
  | nil =>
    intro acc hlen
    simp only [crLoop] at hlen
    simp only [List.nil_append, crLoop, hc]
    split
    · simp
    · obtain ⟨t, ht⟩ := crLoop_prefix cutoff m l2 (acc ++ [crItemRecord item none])
      rw [ht]
      simp
  | cons q t ih =>
    intro acc hlen
    rw [List.cons_append]
    cases hq : _extract_crossref_date q with
    | none =>
      simp only [crLoop, hq] at hlen ⊢
      split at hlen
      · next hbr => omega
      · next hbr =>
        rw [if_neg hbr]
        exact ih _ hlen
    | some dtq =>
      simp only [crLoop, hq] at hlen ⊢
      split at hlen
      · next hskip =>
        rw [if_pos hskip]
        exact ih _ hlen
      · next hskip =>
        rw [if_neg hskip]
        split at hlen
        · next hbr => omega
        · next hbr =>
          rw [if_neg hbr]
          exact ih _ hlen

lemma procLoop_skip (provider feed_title : String) (cutoff : DateTime) (e : FeedEntry)
    (dt : DateTime) (hc : _coerce_datetime (entryRawDate e) = some dt)
    (hlt : dtKey dt < dtKey cutoff) (l1 l2 : List FeedEntry) :
    procLoop provider feed_title cutoff (l1 ++ e :: l2)
      = procLoop provider feed_title cutoff (l1 ++ l2) := by
  induction l1 with
  | nil =>
    simp only [List.nil_append, procLoop, hc]
    rw [if_pos hlt]
  | cons q t ih =>
    simp only [List.cons_append, procLoop]
    cases _coerce_datetime (entryRawDate q) with
    | none =>
      simp only
      exact congrArg (List.cons (procEntryItem provider feed_title q)) ih
    | some dtq =>
      simp only
      split
      · exact ih
      · exact congrArg (List.cons (procEntryItem provider feed_title q)) ih

lemma procLoop_retains (provider feed_title : String) (cutoff : DateTime) (e : FeedEntry)
    (hc : _coerce_datetime (entryRawDate e) = none) (l1 l2 : List FeedEntry) :
    procEntryItem provider feed_title e ∈ procLoop provider feed_title cutoff (l1 ++ e :: l2) := by
  induction l1 with
  | nil =>
    simp only [List.nil_append, procLoop, hc]
    exact List.mem_cons_self _ _
  | cons q t ih =>
    simp only [List.cons_append, procLoop]
    cases _coerce_datetime (entryRawDate q) with
    | none => exact List.mem_cons_of_mem _ ih
    | some dtq =>
      simp only
      split
      · exact ih
      · exact List.mem_cons_of_mem _ ih

/-- C6 counterexample: with `max_results = 1`, a second undated Semantic
Scholar candidate is dropped by the result-count break even though it has
no parseable date, so "every candidate with no parseable publication date
is retained" fails as stated. -/
theorem age_filter_undated_counterexample :
    _coerce_datetime (ssRawDate ⟨some "second", none, some "https://example.org/2",
      none, none, none, []⟩) = none ∧
    _parse_semantic_scholar_payload
      ⟨[⟨some "first", none, some "https://example.org/1", none, none, none, []⟩,
        ⟨some "second", none, some "https://example.org/2", none, none, none, []⟩]⟩
      1 365 ⟨2026, 10, 12, 0, 0, 0⟩
      = [ssItem ⟨some "first", none, some "https://example.org/1", none, none, none, []⟩ none] ∧
    ssItem ⟨some "second", none, some "https://example.org/2", none, none, none, []⟩ none
      ∉ _parse_semantic_scholar_payload
        ⟨[⟨some "first", none, some "https://example.org/1", none, none, none, []⟩,
          ⟨some "second", none, some "https://example.org/2", none, none, none, []⟩]⟩
        1 365 ⟨2026, 10, 12, 0, 0, 0⟩ := by decide

/-- C6 (amended): in all three age-filtered parsers a candidate dated before
the cutoff is excluded — the result equals the result for the payload
without that candidate — and a candidate with no parseable date is never
excluded by the age filter: the proceedings parser always retains it, and
the Semantic Scholar and Crossref parsers retain it whenever their
`max_results` count has not already been reached when it is processed. -/
theorem age_filter_policy :
    (∀ (l1 l2 : List SSPaper) (p : SSPaper) (dt : DateTime) (m maxAgeDays : Nat)
      (now : DateTime), _coerce_datetime (ssRawDate p) = some dt →
      dtKey dt < dtKey (subDays now maxAgeDays) →
      _parse_semantic_scholar_payload ⟨l1 ++ p :: l2⟩ m maxAgeDays now
        = _parse_semantic_scholar_payload ⟨l1 ++ l2⟩ m maxAgeDays now) ∧
    (∀ (l1 l2 : List SSPaper) (p : SSPaper) (m maxAgeDays : Nat) (now : DateTime),
      _coerce_datetime (ssRawDate p) = none →
      (_parse_semantic_scholar_payload ⟨l1⟩ m maxAgeDays now).length < m →
      ssItem p none ∈ _parse_semantic_scholar_payload ⟨l1 ++ p :: l2⟩ m maxAgeDays now) ∧
    (∀ (l1 l2 : List CRItem) (item : CRItem) (dt : DateTime) (m maxAgeDays : Nat)
      (now : DateTime), _extract_crossref_date item = some dt →
      dtKey dt < dtKey (subDays now maxAgeDays) →
      _parse_crossref_payload (l1 ++ item :: l2) m maxAgeDays now
        = _parse_crossref_payload (l1 ++ l2) m maxAgeDays now) ∧
    (∀ (l1 l2 : List CRItem) (item : CRItem) (m maxAgeDays : Nat) (now : DateTime),
      _extract_crossref_date item = none →
      (_parse_crossref_payload l1 m maxAgeDays now).length < m →
      crItemRecord item none ∈ _parse_crossref_payload (l1 ++ item :: l2) m maxAgeDays now) ∧
    (∀ (l1 l2 : List FeedEntry) (e : FeedEntry) (dt : DateTime) (b : Bool)
      (exc ft : Option String) (url pr : String) (maxAgeDays : Nat) (now : DateTime),
      _coerce_datetime (entryRawDate e) = some dt →
      dtKey dt < dtKey (subDays now maxAgeDays) →
      _parse_proceedings_feed ⟨b, exc, ft, l1 ++ e :: l2⟩ url pr maxAgeDays now
        = Except.ok (procLoop pr (orDefault ft (asciiUpper pr)) (subDays now maxAgeDays)
            (l1 ++ l2))) ∧
    (∀ (l1 l2 : List FeedEntry) (e : FeedEntry) (b : Bool) (exc ft : Option String)
      (url pr : String) (maxAgeDays : Nat) (now : DateTime),
      _coerce_datetime (entryRawDate e) = none →
      ∃ items, _parse_proceedings_feed ⟨b, exc, ft, l1 ++ e :: l2⟩ url pr maxAgeDays now
        = Except.ok items ∧
        procEntryItem pr (orDefault ft (asciiUpper pr)) e ∈ items) := by
  refine ⟨?_, ?_, ?_, ?_, ?_, ?_⟩
  · intro l1 l2 p dt m maxAgeDays now hc hlt
    exact ssLoop_skip (subDays now maxAgeDays) m p dt hc hlt l1 l2 []
  · intro l1 l2 p m maxAgeDays now hc hlen
    exact ssLoop_retains (subDays now maxAgeDays) m p hc l1 l2 [] hlen
  · intro l1 l2 item dt m maxAgeDays now hc hlt
    exact crLoop_skip (subDays now maxAgeDays) m item dt hc hlt l1 l2 []
  · intro l1 l2 item m maxAgeDays now hc hlen
    exact crLoop_retains (subDays now maxAgeDays) m item hc l1 l2 [] hlen
  · intro l1 l2 e dt b exc ft url pr maxAgeDays now hc hlt
    unfold _parse_proceedings_feed
    rw [if_neg (fun hf => by simpa using hf.2.2)]
    exact congrArg Except.ok
      (procLoop_skip pr (orDefault ft (asciiUpper pr)) (subDays now maxAgeDays) e dt hc hlt l1 l2)
  · intro l1 l2 e b exc ft url pr maxAgeDays now hc
    refine ⟨procLoop pr (orDefault ft (asciiUpper pr)) (subDays now maxAgeDays) (l1 ++ e :: l2),
      ?_, procLoop_retains pr (orDefault ft (asciiUpper pr)) (subDays now maxAgeDays) e hc l1 l2⟩
    unfold _parse_proceedings_feed
    rw [if_neg (fun hf => by simpa using hf.2.2)]

/-- C6 witness: a 2005/2010-dated candidate is excluded by each parser with
a 365-day window from 2026-10-12, and a concrete undated candidate is
retained by each parser. -/
theorem age_filter_policy_witness :
    _parse_semantic_scholar_payload
        ⟨[⟨some "Old", none, none, none, some "2010-01-01", none, []⟩]⟩ 5 365
        ⟨2026, 10, 12, 0, 0, 0⟩
      = _parse_semantic_scholar_payload ⟨[]⟩ 5 365 ⟨2026, 10, 12, 0, 0, 0⟩ ∧
    ssItem ⟨some "New", none, none, none, none, none, []⟩ none
      ∈ _parse_semantic_scholar_payload ⟨[⟨some "New", none, none, none, none, none, []⟩]⟩ 5 365
          ⟨2026, 10, 12, 0, 0, 0⟩ ∧
    _parse_crossref_payload
        [⟨["Old"], none, none, none, [], some ⟨some [[2005, 1, 1]]⟩, none, none, none⟩] 5 365
        ⟨2026, 10, 12, 0, 0, 0⟩
      = _parse_crossref_payload [] 5 365 ⟨2026, 10, 12, 0, 0, 0⟩ ∧
    crItemRecord ⟨["New"], none, none, none, [], none, none, none, none⟩ none
      ∈ _parse_crossref_payload [⟨["New"], none, none, none, [], none, none, none, none⟩] 5 365
          ⟨2026, 10, 12, 0, 0, 0⟩ ∧
    _parse_proceedings_feed
        ⟨false, none, some "NeurIPS",
          [⟨some "Old", none, [], none, some "Mon, 01 Jan 2010 00:00:00 GMT", none, none,
            none⟩]⟩ "u" "neurips" 365 ⟨2026, 10, 12, 0, 0, 0⟩
      = Except.ok (procLoop "neurips" (orDefault (some "NeurIPS") (asciiUpper "neurips"))
          (subDays ⟨2026, 10, 12, 0, 0, 0⟩ 365) []) ∧
    (∃ items, _parse_proceedings_feed
        ⟨false, none, some "NeurIPS", [⟨some "New", none, [], none, none, none, none, none⟩]⟩
        "u" "neurips" 365 ⟨2026, 10, 12, 0, 0, 0⟩ = Except.ok items ∧
      procEntryItem "neurips" (orDefault (some "NeurIPS") (asciiUpper "neurips"))
        ⟨some "New", none, [], none, none, none, none, none⟩ ∈ items) :=
  ⟨age_filter_policy.1 [] [] _ ⟨2010, 1, 1, 0, 0, 0⟩ 5 365 _ (by decide) (by decide),
   age_filter_policy.2.1 [] [] _ 5 365 _ (by decide) (by decide),
   age_filter_policy.2.2.1 [] [] _ ⟨2005, 1, 1, 0, 0, 0⟩ 5 365 _ (by decide) (by decide),
   age_filter_policy.2.2.2.1 [] [] _ 5 365 _ (by decide) (by decide),
   age_filter_policy.2.2.2.2.1 [] [] _ ⟨2010, 1, 1, 0, 0, 0⟩ false none (some "NeurIPS") "u"
     "neurips" 365 _ (by decide) (by decide),
   age_filter_policy.2.2.2.2.2 [] [] _ false none (some "NeurIPS") "u" "neurips" 365 _
     (by decide)⟩

/-! ### Timestamp Normalizer theorems (C1, C7) -/

/-- C1 counterexample: `"garbage"` is parsed by none of the supported
formats, yet `_format_timestamp` returns it unchanged rather than
`"Unknown date"` (while `_parse_datetime` does yield the minimum
instant). -/
theorem format_timestamp_unparsable_counterexample :
    parseIsoZ "garbage" = none ∧ strptimeRFC822 "garbage" = none ∧
    parseFmt1Chars "garbage".data = none ∧ parseFmt2Chars "garbage".data = none ∧
    _format_timestamp (some "garbage") = "garbage" ∧
    _format_timestamp (some "garbage") ≠ "Unknown date" ∧
    _parse_datetime (some "garbage") = datetimeMin := by decide

/-- C1 (amended): normalization of an unparsable raw timestamp never
raises, and its orderable time is the minimum representable instant; but
the display string is `"Unknown date"` only for an absent or empty input —
a non-empty unparsable input is returned unchanged as its own display
string. -/
theorem timestamp_normalizer_unparsable (s : String)
    (hiso : parseIsoZ s = none) (hrfc : strptimeRFC822 s = none)
    (hf1 : parseFmt1Chars s.data = none) (hf2 : parseFmt2Chars s.data = none) :
    _format_timestamp (some s) = (if s = "" then "Unknown date" else s) ∧
    _parse_datetime (some s) = datetimeMin ∧
    _format_timestamp none = "Unknown date" ∧ _parse_datetime none = datetimeMin := by
  refine ⟨?_, ?_, rfl, rfl⟩
  · simp only [_format_timestamp, hiso, hrfc]
  · show (if s = "" ∨ s = "Unknown date" then datetimeMin
      else (parseDatetimeOpt s).getD datetimeMin) = datetimeMin
    split
    · rfl
    · simp only [parseDatetimeOpt, hf1, hf2, hiso]
      rfl

/-- C1 witness: the amended statement applied at the concrete unparsable
input `"garbage"`. -/
theorem timestamp_normalizer_unparsable_witness :
    _format_timestamp (some "garbage") = (if "garbage" = "" then "Unknown date" else "garbage") ∧
    _parse_datetime (some "garbage") = datetimeMin ∧
    _format_timestamp none = "Unknown date" ∧ _parse_datetime none = datetimeMin :=
  timestamp_normalizer_unparsable "garbage" (by decide) (by decide) (by decide) (by decide)

lemma mkValidDateTime_some {y mo d h mi s : Nat} {dt : DateTime}
    (hmk : mkValidDateTime y mo d h mi s = some dt) :
    ValidDT dt ∧ dt = ⟨y, mo, d, h, mi, s⟩ := by
  unfold mkValidDateTime at hmk
  split at hmk
  · next hv => cases hmk; exact ⟨hv, rfl⟩
  · exact absurd hmk (by simp)

lemma parseFmt1Chars_valid {l : List Char} {dt : DateTime}
    (h : parseFmt1Chars l = some dt) : ValidDT dt := by
  unfold parseFmt1Chars at h
  simp only [bind, Option.bind_eq_some] at h
  obtain ⟨⟨y, l1⟩, -, h⟩ := h
  obtain ⟨l2, -, h⟩ := h
  obtain ⟨⟨mo, l3⟩, -, h⟩ := h
  obtain ⟨l4, -, h⟩ := h
  obtain ⟨⟨d, l5⟩, -, h⟩ := h
  obtain ⟨l6, -, h⟩ := h
  obtain ⟨⟨hh, l7⟩, -, h⟩ := h
  obtain ⟨l8, -, h⟩ := h
  obtain ⟨⟨mi, l9⟩, -, h⟩ := h
  obtain ⟨l10, -, h⟩ := h
  split at h
  · exact (mkValidDateTime_some h).1
  · exact absurd h (by simp)

lemma parseFmt2Chars_valid {l : List Char} {dt : DateTime}
    (h : parseFmt2Chars l = some dt) : ValidDT dt := by
  unfold parseFmt2Chars at h
  simp only [bind, Option.bind_eq_some] at h
  obtain ⟨⟨y, l1⟩, -, h⟩ := h
  obtain ⟨l2, -, h⟩ := h
  obtain ⟨⟨mo, l3⟩, -, h⟩ := h
  obtain ⟨l4, -, h⟩ := h
  obtain ⟨⟨d, l5⟩, -, h⟩ := h
  obtain ⟨l6, -, h⟩ := h
  obtain ⟨⟨hh, l7⟩, -, h⟩ := h
  obtain ⟨l8, -, h⟩ := h
  obtain ⟨⟨mi, l9⟩, -, h⟩ := h
  obtain ⟨l10, -, h⟩ := h
  obtain ⟨⟨s2, l11⟩, -, h⟩ := h
  obtain ⟨l12, -, h⟩ := h
  split at h
  · exact (mkValidDateTime_some h).1
  · exact absurd h (by simp)

lemma parseIsoChars_valid {l : List Char} {dt : DateTime} {off : Option Int}
    (h : parseIsoChars l = some (dt, off)) : ValidDT dt := by
  unfold parseIsoChars at h
  simp only [bind, Option.bind_eq_some] at h
  obtain ⟨⟨y, l1⟩, -, h⟩ := h
  obtain ⟨l2, -, h⟩ := h
  obtain ⟨⟨mo, l3⟩, -, h⟩ := h
  obtain ⟨l4, -, h⟩ := h
  obtain ⟨⟨d, l5⟩, -, h⟩ := h
  cases l5 with
  | nil =>
    simp only [Option.map_eq_some'] at h
    obtain ⟨a, ha, hfst⟩ := h
    cases hfst
    exact (mkValidDateTime_some ha).1
  | cons sep rest =>
    simp only at h
    split at h
    · split at h
      · next hti =>
        simp only [Option.map_eq_some'] at h
        obtain ⟨a, ha, hfst⟩ := h
        cases hfst
        exact (mkValidDateTime_some ha).1
      · exact absurd h (by simp)
    · exact absurd h (by simp)

lemma parseDatetimeOpt_valid {s : String} {dt : DateTime}
    (h : parseDatetimeOpt s = some dt) : ValidDT dt := by
  unfold parseDatetimeOpt at h
  cases h1 : parseFmt1Chars s.data with
  | some dt1 =>
    rw [h1] at h
    cases h
    exact parseFmt1Chars_valid h1
  | none =>
    rw [h1] at h
    cases h2 : parseFmt2Chars s.data with
    | some dt2 =>
      rw [h2] at h
      cases h
      exact parseFmt2Chars_valid h2
    | none =>
      rw [h2] at h
      cases h3 : parseIsoZ s with
      | some p =>
        rw [h3] at h
        cases h
        have h4 : parseIsoChars (replaceZChars s.data) = some (p.1, p.2) := by
          simpa [parseIsoZ] using h3
        exact parseIsoChars_valid h4
      | none =>
        rw [h3] at h
        exact absurd h (by simp)

lemma dtKey_min_le_of_valid {dt : DateTime} (hv : ValidDT dt) :
    dtKey datetimeMin ≤ dtKey dt := by
  obtain ⟨h1, h2, h3, h4, h5, h6, h7, h8, h9⟩ := hv
  unfold dtKey datetimeMin
  simp only
  omega

/-- The minimum instant is a global lower bound for the orderable key of
any record. -/
lemma itemOrderKey_ge_min (it : ContextItem) : dtKey datetimeMin ≤ itemOrderKey it := by
  unfold itemOrderKey
  show dtKey datetimeMin ≤ dtKey (if it.published_at = "" ∨ it.published_at = "Unknown date"
    then datetimeMin else (parseDatetimeOpt it.published_at).getD datetimeMin)
  split
  · exact Nat.le_refl _
  · cases hp : parseDatetimeOpt it.published_at with
    | none => simp [hp]
    | some dt =>
      simp only [hp, Option.getD_some]
      exact dtKey_min_le_of_valid (parseDatetimeOpt_valid hp)

/-! ### Ranking theorems (C4) -/

/-- C4 counterexample: an `"Unknown date"` record is ranked above a record
whose `published_at` parses successfully — namely one whose parsed date is
exactly the minimum instant, with which the unknown-dated record ties and,
by sort stability, stays in front. -/
theorem ranking_unknown_counterexample :
    (fetch_context_items [Except.ok
        [_build_context_item "rss" (some "A") (some "t1") (some "") (some "u1") none (some ""),
         _build_context_item "rss" (some "B") (some "t2") (some "") (some "u2")
           (some "0001-01-01 00:00 UTC") (some "")]] 8).map (fun it => it.published_at)
      = ["Unknown date", "0001-01-01 00:00 UTC"] ∧
    parseDatetimeOpt "0001-01-01 00:00 UTC" = some datetimeMin := by decide

/-- C4 (amended): the aggregator's output is always sorted by normalized
timestamp in non-increasing order, and a record whose `published_at` is
`"Unknown date"` is only ever ranked above records whose orderable
timestamp is itself the minimum instant — in particular never above a
record whose parsed date is strictly after the minimum instant. -/
theorem fetch_context_items_ranking (chunks : List (Except String (List ContextItem)))
    (limit : Nat) :
    List.Sorted recencyRel (fetch_context_items chunks limit) ∧
    List.Pairwise
      (fun a b => a.published_at = "Unknown date" → itemOrderKey b = dtKey datetimeMin)
      (fetch_context_items chunks limit) := by
  have hs : List.Sorted recencyRel (fetch_context_items chunks limit) := by
    unfold fetch_context_items
    exact List.Pairwise.sublist (List.take_sublist _ _)
      (List.sorted_insertionSort recencyRel _)
  refine ⟨hs, List.Pairwise.imp ?_ hs⟩
  intro a b hab ha
  have h1 : itemOrderKey a = dtKey datetimeMin := by
    unfold itemOrderKey
    show dtKey (if a.published_at = "" ∨ a.published_at = "Unknown date"
      then datetimeMin else (parseDatetimeOpt a.published_at).getD datetimeMin)
      = dtKey datetimeMin
    rw [if_pos (Or.inr ha)]
  have h2 := itemOrderKey_ge_min b
  have h3 : itemOrderKey b ≤ itemOrderKey a := hab
  omega

/-! ### Dedup theorems (C3) -/

/-- The resolution rule of the dedup loop: keep the held record unless the
new record is strictly more recent. -/
def pickRecent (o : Option ContextItem) (it : ContextItem) : ContextItem :=
  match o with
  | none => it
  | some ex => if itemOrderKey ex < itemOrderKey it then it else ex

lemma lookup_append_of_some {k : String} {acc : List (String × ContextItem)}
    {v0 : ContextItem} (h : lookupEntry k acc = some v0)
    (l : List (String × ContextItem)) : lookupEntry k (acc ++ l) = some v0 := by
  induction acc with
  | nil => simp [lookupEntry] at h
  | cons e rest ih =>
    simp only [lookupEntry, List.cons_append] at h ⊢
    split at h
    · next hk => rw [if_pos hk]; exact h
    · next hk => rw [if_neg hk]; exact ih h

lemma lookup_append_of_none {k : String} {acc : List (String × ContextItem)}
    (h : lookupEntry k acc = none) (l : List (String × ContextItem)) :
    lookupEntry k (acc ++ l) = lookupEntry k l := by
  induction acc with
  | nil => rfl
  | cons e rest ih =>
    simp only [lookupEntry, List.cons_append] at h ⊢
    split at h
    · exact absurd h (by simp)
    · next hk => rw [if_neg hk]; exact ih h

lemma lookup_replace_self {k : String} {acc : List (String × ContextItem)}
    {ex : ContextItem} (h : lookupEntry k acc = some ex) (v : ContextItem) :
    lookupEntry k (replaceEntry k v acc) = some v := by
  induction acc with
  | nil => simp [lookupEntry] at h
  | cons e rest ih =>
    simp only [lookupEntry] at h
    simp only [replaceEntry]
    split at h
    · next hk => rw [if_pos hk]; simp only [lookupEntry]; rw [if_pos hk]
    · next hk => rw [if_neg hk]; simp only [lookupEntry]; rw [if_neg hk]; exact ih h

lemma lookup_replace_ne {k k2 : String} (hne : k2 ≠ k) (v : ContextItem)
    (acc : List (String × ContextItem)) :
    lookupEntry k (replaceEntry k2 v acc) = lookupEntry k acc := by
  induction acc with
  | nil => rfl
  | cons e rest ih =>
    simp only [replaceEntry, lookupEntry]
    by_cases hk : e.1 = k2
    · rw [if_pos hk]
      simp only [lookupEntry]
      rw [if_neg (by rw [hk]; exact hne), if_neg (by rw [hk]; exact hne)]
    · rw [if_neg hk]
      simp only [lookupEntry]
      by_cases hk2 : e.1 = k
      · rw [if_pos hk2, if_pos hk2]
      · rw [if_neg hk2, if_neg hk2]
        exact ih

lemma lookup_dedupStep (k : String) (acc : List (String × ContextItem)) (it : ContextItem) :
    lookupEntry k (dedupStep acc it)
      = if dedupKey it = k then some (pickRecent (lookupEntry k acc) it)
        else lookupEntry k acc := by
  cases hl : lookupEntry (dedupKey it) acc with
  | none =>
    simp only [dedupStep, hl]
    by_cases hk : dedupKey it = k
    · have hl2 : lookupEntry k acc = none := hk ▸ hl
      rw [if_pos hk, lookup_append_of_none hl2]
      simp only [lookupEntry]
      rw [if_pos hk, hl2]
      rfl
    · rw [if_neg hk]
      cases hk2 : lookupEntry k acc with
      | some v0 => exact lookup_append_of_some hk2 _
      | none =>
        rw [lookup_append_of_none hk2]
        simp only [lookupEntry]
        rw [if_neg hk]
  | some ex =>
    simp only [dedupStep, hl]
    split
    · next hlt =>
      by_cases hk : dedupKey it = k
      · have hl2 : lookupEntry k acc = some ex := hk ▸ hl
        rw [hk, if_pos rfl, lookup_replace_self hl2 it, hl2]
        simp [pickRecent, hlt]
      · rw [if_neg hk]
        exact lookup_replace_ne hk it acc
    · next hlt =>
      by_cases hk : dedupKey it = k
      · have hl2 : lookupEntry k acc = some ex := hk ▸ hl
        rw [if_pos hk, hl2]
        simp [pickRecent, hlt]
      · rw [if_neg hk]

lemma lookup_dedup_fold (k : String) (l : List ContextItem)
    (acc : List (String × ContextItem)) :
    lookupEntry k (List.foldl dedupStep acc l)
      = List.foldl (fun o it => if dedupKey it = k then some (pickRecent o it) else o)
          (lookupEntry k acc) l := by
  induction l generalizing acc with
  | nil => rfl
  | cons it rest ih =>
    rw [List.foldl_cons, List.foldl_cons, ih, lookup_dedupStep]

lemma fold_pick_filter (k : String) (l : List ContextItem) (o : Option ContextItem) :
    List.foldl (fun o it => if dedupKey it = k then some (pickRecent o it) else o) o l
      = List.foldl (fun o it => some (pickRecent o it)) o
          (l.filter (fun it => dedupKey it == k)) := by
  induction l generalizing o with
  | nil => rfl
  | cons it rest ih =>
    rw [List.foldl_cons]
    by_cases hk : dedupKey it = k
    · rw [if_pos hk, List.filter_cons_of_pos (by simpa using hk), List.foldl_cons, ih]
    · rw [if_neg hk, List.filter_cons_of_neg (by simpa using hk), ih]

lemma mem_replaceEntry {e : String × ContextItem} {k : String} {v : ContextItem}
    {acc : List (String × ContextItem)} (he : e ∈ replaceEntry k v acc) :
    e ∈ acc ∨ e = (k, v) := by
  induction acc with
  | nil => simp [replaceEntry] at he
  | cons x rest ih =>
    simp only [replaceEntry] at he
    split at he
    · next hk =>
      rcases List.mem_cons.mp he with h | h
      · exact Or.inr (by rw [h, hk])
      · exact Or.inl (List.mem_cons_of_mem _ h)
    · rcases List.mem_cons.mp he with h | h
      · exact Or.inl (h ▸ List.mem_cons_self _ _)
      · rcases ih h with h2 | h2
        · exact Or.inl (List.mem_cons_of_mem _ h2)
        · exact Or.inr h2

lemma keys_replaceEntry (k : String) (v : ContextItem)
    (acc : List (String × ContextItem)) :
    (replaceEntry k v acc).map Prod.fst = acc.map Prod.fst := by
  induction acc with
  | nil => rfl
  | cons x rest ih =>
    simp only [replaceEntry]
    split
    · simp
    · simp [ih]

lemma lookup_eq_none_iff (k : String) (acc : List (String × ContextItem)) :
    lookupEntry k acc = none ↔ k ∉ acc.map Prod.fst := by
  induction acc with
  | nil => simp [lookupEntry]
  | cons x rest ih =>
    simp only [lookupEntry, List.map_cons, List.mem_cons]
    split
    · next hk => simp [hk.symm]
    · next hk =>
      rw [ih]
      constructor
      · intro h hc
        rcases hc with hc | hc
        · exact hk hc.symm
        · exact h hc
      · intro h hc
        exact h (Or.inr hc)

lemma dedupStep_key_invariant {acc : List (String × ContextItem)} {it : ContextItem}
    (hinv : ∀ e ∈ acc, dedupKey e.2 = e.1) :
    ∀ e ∈ dedupStep acc it, dedupKey e.2 = e.1 := by
  intro e he
  cases hl : lookupEntry (dedupKey it) acc with
  | none =>
    simp only [dedupStep, hl] at he
    rcases List.mem_append.mp he with h | h
    · exact hinv e h
    · simp only [List.mem_singleton] at h
      rw [h]
  | some ex =>
    simp only [dedupStep, hl] at he
    split at he
    · rcases mem_replaceEntry he with h | h
      · exact hinv e h
      · rw [h]
    · exact hinv e he

lemma dedupStep_keys_nodup {acc : List (String × ContextItem)} {it : ContextItem}
    (hnd : (acc.map Prod.fst).Nodup) : ((dedupStep acc it).map Prod.fst).Nodup := by
  cases hl : lookupEntry (dedupKey it) acc with
  | none =>
    simp only [dedupStep, hl]
    rw [List.map_append]
    simp only [List.map_cons, List.map_nil]
    rw [List.nodup_append]
    refine ⟨hnd, List.nodup_singleton _, ?_⟩
    intro a ha hb
    simp only [List.mem_singleton] at hb
    subst hb
    exact absurd ha ((lookup_eq_none_iff _ _).mp hl)
  | some ex =>
    simp only [dedupStep, hl]
    split
    · rw [keys_replaceEntry]
      exact hnd
    · exact hnd

lemma dedupItems_key_invariant (l : List ContextItem) :
    ∀ e ∈ dedupItems l, dedupKey e.2 = e.1 := by
  unfold dedupItems
  generalize hacc : ([] : List (String × ContextItem)) = acc
  have hinv : ∀ e ∈ acc, dedupKey e.2 = e.1 := by rw [← hacc]; simp
  clear hacc
  induction l generalizing acc with
  | nil => exact hinv
  | cons it rest ih =>
    rw [List.foldl_cons]
    exact ih _ (dedupStep_key_invariant hinv)

lemma dedupItems_keys_nodup (l : List ContextItem) :
    ((dedupItems l).map Prod.fst).Nodup := by
  unfold dedupItems
  generalize hacc : ([] : List (String × ContextItem)) = acc
  have hnd : (acc.map Prod.fst).Nodup := by rw [← hacc]; simp
  clear hacc
  induction l generalizing acc with
  | nil => exact hnd
  | cons it rest ih =>
    rw [List.foldl_cons]
    exact ih _ (dedupStep_keys_nodup hnd)

lemma filter_values_of_lookup {k : String} {w : ContextItem}
    {acc : List (String × ContextItem)} (hinv : ∀ e ∈ acc, dedupKey e.2 = e.1)
    (hnd : (acc.map Prod.fst).Nodup) (hl : lookupEntry k acc = some w) :
    (acc.map Prod.snd).filter (fun it => dedupKey it == k) = [w] := by
  induction acc with
  | nil => simp [lookupEntry] at hl
  | cons x rest ih =>
    simp only [lookupEntry] at hl
    simp only [List.map_cons, List.map_nil] at hnd ⊢
    split at hl
    · next hk =>
      cases hl
      have hx : dedupKey x.2 = k := by
        rw [hinv x (List.mem_cons_self _ _), hk]
      rw [List.filter_cons_of_pos (by simpa using hx)]
      have hrest : (rest.map Prod.snd).filter (fun it => dedupKey it == k) = [] := by
        rw [List.filter_eq_nil_iff]
        intro a ha
        obtain ⟨e, he, hea⟩ := List.mem_map.mp ha
        have h1 : dedupKey a = e.1 := by rw [← hea]; exact hinv e (List.mem_cons_of_mem _ he)
        have h2 : e.1 ≠ k := by
          intro hek
          have : x.1 ∈ rest.map Prod.fst := by
            rw [hk, ← hek]
            exact List.mem_map.mpr ⟨e, he, rfl⟩
          exact (List.nodup_cons.mp hnd).1 this
        simp [h1, h2]
      rw [hrest]
    · next hk =>
      have hx : dedupKey x.2 ≠ k := by
        rw [hinv x (List.mem_cons_self _ _)]
        exact hk
      rw [List.filter_cons_of_neg (by simpa using hx)]
      exact ih (fun e he => hinv e (List.mem_cons_of_mem _ he)) (List.nodup_cons.mp hnd).2 hl

/-- C3: when exactly two collected records share a dedup key, the
aggregator's output contains exactly one record for that key — the strictly
more recent one, and on equal timestamps the first one encountered —
regardless of the order in which the two records arrive (the limit is
assumed large enough that truncation, covered separately, does not
discard the key). -/
theorem fetch_context_items_dedup (chunks : List (Except String (List ContextItem)))
    (k : String) (r1 r2 : ContextItem) (limit : Nat)
    (hpair : (collectResults chunks).filter (fun it => dedupKey it == k) = [r1, r2])
    (hlim : ((dedupItems (collectResults chunks)).map Prod.snd).length ≤ limit) :
    (fetch_context_items chunks limit).filter (fun it => dedupKey it == k)
      = [if itemOrderKey r1 < itemOrderKey r2 then r2 else r1] := by
  have hlook : lookupEntry k (dedupItems (collectResults chunks))
      = some (if itemOrderKey r1 < itemOrderKey r2 then r2 else r1) := by
    unfold dedupItems
    rw [lookup_dedup_fold]
    show List.foldl _ none _ = _
    rw [fold_pick_filter, hpair]
    simp only [List.foldl_cons, List.foldl_nil]
    rfl
  have hvals := filter_values_of_lookup (dedupItems_key_invariant (collectResults chunks))
    (dedupItems_keys_nodup (collectResults chunks)) hlook
  have hperm := List.perm_insertionSort recencyRel
    ((dedupItems (collectResults chunks)).map Prod.snd)
  have hsortfilter : (List.insertionSort recencyRel
      ((dedupItems (collectResults chunks)).map Prod.snd)).filter
        (fun it => dedupKey it == k)
      = [if itemOrderKey r1 < itemOrderKey r2 then r2 else r1] := by
    refine List.perm_singleton.mp ?_
    rw [← hvals]
    exact hperm.filter _
  unfold fetch_context_items
  rw [List.take_of_length_le (by rw [hperm.length_eq]; exact hlim)]
  exact hsortfilter

/-- C3 witness: two concrete records sharing a URL key, arriving in either
order, collapse to the single strictly-more-recent record. -/
theorem fetch_context_items_dedup_witness :
    (fetch_context_items [Except.ok
        [_build_context_item "rss" (some "Feed") (some "Duplicate") (some "same link")
          (some "https://example.org/dup") (some "2024-01-01 00:00 UTC") (some ""),
         _build_context_item "semantic_scholar" (some "ICLR") (some "Duplicate") (some "newer")
          (some "https://example.org/dup") (some "2024-02-01 00:00 UTC") (some "")]] 8).filter
      (fun it => dedupKey it == "https://example.org/dup")
      = [if itemOrderKey (_build_context_item "rss" (some "Feed") (some "Duplicate")
            (some "same link") (some "https://example.org/dup")
            (some "2024-01-01 00:00 UTC") (some ""))
          < itemOrderKey (_build_context_item "semantic_scholar" (some "ICLR")
            (some "Duplicate") (some "newer") (some "https://example.org/dup")
            (some "2024-02-01 00:00 UTC") (some ""))
        then _build_context_item "semantic_scholar" (some "ICLR") (some "Duplicate")
          (some "newer") (some "https://example.org/dup") (some "2024-02-01 00:00 UTC")
          (some "")
        else _build_context_item "rss" (some "Feed") (some "Duplicate") (some "same link")
          (some "https://example.org/dup") (some "2024-01-01 00:00 UTC") (some "")] :=
  fetch_context_items_dedup _ "https://example.org/dup" _ _ 8 (by decide) (by decide)

/-! ### Round-trip theorems (C7) -/

lemma digitChar_isDigit : ∀ n, n < 10 → isDigitChar (digitChar n) = true := by decide

lemma digitChar_val : ∀ n, n < 10 → digitVal (digitChar n) = n := by decide

lemma digitChar_toNat : ∀ n, n < 10 → (digitChar n).toNat = 48 + n := by decide

lemma parse4Digits_pad4 (y : Nat) (hy : y ≤ 9999) (rest : List Char) :
    parse4Digits (pad4chars y ++ rest) = some (y, rest) := by
  have h1 : y / 1000 < 10 := by omega
  have h2 : y / 100 % 10 < 10 := Nat.mod_lt _ (by omega)
  have h3 : y / 10 % 10 < 10 := Nat.mod_lt _ (by omega)
  have h4 : y % 10 < 10 := Nat.mod_lt _ (by omega)
  simp only [pad4chars, List.cons_append, List.nil_append, parse4Digits,
    digitChar_isDigit _ h1, digitChar_isDigit _ h2, digitChar_isDigit _ h3,
    digitChar_isDigit _ h4, Bool.and_self, if_true,
    digitChar_val _ h1, digitChar_val _ h2, digitChar_val _ h3, digitChar_val _ h4]
  have : ((y / 1000 * 10 + y / 100 % 10) * 10 + y / 10 % 10) * 10 + y % 10 = y := by omega
  rw [this]

lemma parseMonth2_pad2 (mo : Nat) (hlo : 1 ≤ mo) (hhi : mo ≤ 12) (rest : List Char) :
    parseMonth2 (pad2chars mo ++ rest) = some (mo, rest) := by
  interval_cases mo <;> rfl

lemma parseDay2_pad2 (d : Nat) (hlo : 1 ≤ d) (hhi : d ≤ 31) (rest : List Char) :
    parseDay2 (pad2chars d ++ rest) = some (d, rest) := by
  interval_cases d <;> rfl

lemma parseHour2_pad2 (h : Nat) (hhi : h ≤ 23) (rest : List Char) :
    parseHour2 (pad2chars h ++ rest) = some (h, rest) := by
  interval_cases h <;> rfl

lemma parseMinSec2_pad2 (x : Nat) (hhi : x ≤ 59) (rest : List Char) :
    parseMinSec2 (pad2chars x ++ rest) = some (x, rest) := by
  interval_cases x <;> rfl

lemma expectChar_cons (c : Char) (l : List Char) : expectChar c (c :: l) = some l := by
  simp [expectChar]

lemma daysInMonth_le_31 (y m : Nat) : daysInMonth y m ≤ 31 := by
  unfold daysInMonth
  split
  · split <;> omega
  · split <;> omega

lemma parseFmt1_canonical (dt : DateTime) (hv : ValidDT dt) :
    parseFmt1Chars (canonicalChars dt)
      = mkValidDateTime dt.year dt.month dt.day dt.hour dt.minute 0 := by
  obtain ⟨h1, h2, h3, h4, h5, h6, h7, h8, h9⟩ := hv
  have hd31 : dt.day ≤ 31 := le_trans h6 (daysInMonth_le_31 _ _)
  simp only [parseFmt1Chars, canonicalChars,
    parse4Digits_pad4 dt.year h2, expectChar_cons,
    parseMonth2_pad2 dt.month h3 h4, parseDay2_pad2 dt.day h5 hd31,
    parseHour2_pad2 dt.hour h7, parseMinSec2_pad2 dt.minute h8,
    bind, Option.bind, expectSeq, if_true, if_pos rfl]

/-- C7: display and orderable forms agree — for every minute-precision
datetime `d` (valid components, zero seconds), `_parse_datetime` applied to
the canonical `"YYYY-MM-DD HH:MM UTC"` rendering produced by
`_format_timestamp`'s `strftime` recovers exactly `d`, the orderable time
that determines sort order. -/
theorem display_orderable_roundtrip (dt : DateTime) (hv : ValidDT dt)
    (hs : dt.second = 0) : _parse_datetime (some (strftimeCanonical dt)) = dt := by
  have hp1 : parseFmt1Chars (strftimeCanonical dt).data = some dt := by
    show parseFmt1Chars (canonicalChars dt) = some dt
    rw [parseFmt1_canonical dt hv]
    obtain ⟨y, mo, d, h, mi, s⟩ := dt
    simp only at hs
    subst hs
    unfold mkValidDateTime
    rw [if_pos hv]
  have hne1 : strftimeCanonical dt ≠ "" := by
    intro h
    have h2 := congrArg String.data h
    simp [strftimeCanonical, canonicalChars, pad4chars] at h2
  have hne2 : strftimeCanonical dt ≠ "Unknown date" := by
    intro h
    have h2 := congrArg String.data h
    simp only [strftimeCanonical, canonicalChars, pad4chars, List.cons_append] at h2
    have h3 : digitChar (dt.year / 1000) = 'U' := (List.cons.injEq _ _ _ _).mp h2 |>.1
    have h4 : dt.year / 1000 < 10 := by
      have := hv.2.1
      omega
    have h5 := digitChar_toNat _ h4
    rw [h3] at h5
    simp at h5
    omega
  show (if strftimeCanonical dt = "" ∨ strftimeCanonical dt = "Unknown date" then datetimeMin
    else (parseDatetimeOpt (strftimeCanonical dt)).getD datetimeMin) = dt
  rw [if_neg (not_or.mpr ⟨hne1, hne2⟩)]
  unfold parseDatetimeOpt
  rw [hp1]
  rfl

/-- C7 witness: the round trip at the concrete minute-precision datetime
2024-10-02 15:00. -/
theorem display_orderable_roundtrip_witness :
    _parse_datetime (some (strftimeCanonical ⟨2024, 10, 2, 15, 0, 0⟩))
      = ⟨2024, 10, 2, 15, 0, 0⟩ :=
  display_orderable_roundtrip ⟨2024, 10, 2, 15, 0, 0⟩ (by decide) (by decide)
